import Mathlib

/-!
# Verification of fv3net spec claims

A shallow embedding of the parts of the fv3net repository needed to settle
the frozen claims: precipitation diagnostics (`runtime.diagnostics.compute`),
the emulation hook configuration (`emulation.config`), the netCDF directory
loader (`fv3fit.data.netcdf.load`), the offline prediction mapper
(`offline_ml_diags._mapper`), the chunked shuffle helper (`loaders._utils`),
the keras `ArrayPacker`, and the reservoir `RankDivider`
(`fv3fit.reservoir.domain`).

Numeric array values are modelled as rationals; `xr.DataArray` values appear
as `List ℚ` (element-wise operations) or as shaped `NDArray` records where
numpy reshaping semantics matter.
-/

namespace Fv3net

/-! ## runtime/diagnostics/compute.py -/

/-- Constant `KG_PER_M2_PER_M = 1000.0` from `runtime/diagnostics/compute.py`. -/
def KG_PER_M2_PER_M : ℚ := 1000

/-- `precipitation_sum(physics_precip, column_dq2, dt)`:
`ml_precip = -column_dq2 * dt * (1/1000)`, `total = physics_precip + ml_precip`,
then `total.where(total >= 0, 0)` (keep where nonnegative, else zero). -/
def precipitation_sum (physics_precip column_dq2 : List ℚ) (dt : ℚ) : List ℚ :=
  let m_per_mm : ℚ := 1 / 1000
  let total_precip :=
    List.zipWith (fun p q => p + (-q * dt * m_per_mm)) physics_precip column_dq2
  total_precip.map (fun t => if 0 ≤ t then t else 0)

/-- `precipitation_accumulation(precipitation_rate, dt) = rate * dt / KG_PER_M2_PER_M`
applied element-wise. -/
def precipitation_accumulation (rate : List ℚ) (dt : ℚ) : List ℚ :=
  rate.map (fun r => r * dt / KG_PER_M2_PER_M)

/-- `precipitation_rate(precipitation_accumulation, dt) =
KG_PER_M2_PER_M * accumulation / dt` applied element-wise. -/
def precipitation_rate (accumulation : List ℚ) (dt : ℚ) : List ℚ :=
  accumulation.map (fun a => KG_PER_M2_PER_M * a / dt)

/-! ## fv3fit/data/netcdf/load.py

`io.py` (defining `CACHE_DIR`, `download_cached`, `get_nc_files`) is not part
of the sources; those are modelled abstractly.  The opened dataset records
which cache directory was used to download it, so that any dependence of the
result on the cache argument would be visible. -/

/-- Modelled from the spec: `CACHE_DIR` from `fv3fit.data.netcdf.io`, the
module-default cache directory (`$pwd/.cache`). -/
def CACHE_DIR : String := ".cache"

/-- Result of `open_netcdf_dataset`: the opened, materialized dataset.  It is
a function of the remote path and of the cache directory through which
`download_cached` resolved the file. -/
structure OpenedDataset where
  path : String
  cacheDir : String
  deriving DecidableEq

/-- `open_netcdf_dataset(path, cache)`: resolve through the download cache,
open and materialize. -/
def open_netcdf_dataset (path : String) (cache : String) : OpenedDataset :=
  ⟨path, cache⟩

/-- Abstract tensor values produced by `tf.convert_to_tensor(ds[key])`. -/
structure Tensor where
  source : OpenedDataset
  varName : String
  deriving DecidableEq

/-- `to_tensor(ds, variable_names)`: one named tensor per requested variable. -/
def to_tensor (ds : OpenedDataset) (variable_names : List String) :
    List (String × Tensor) :=
  variable_names.map (fun key => (key, ⟨ds, key⟩))

/-- `nc_files_to_tf_dataset(files, convert, cache=CACHE_DIR)`: map each file
through `open_netcdf_dataset(path, cache)` then `convert`. -/
def nc_files_to_tf_dataset {α : Type} (files : List String)
    (convert : OpenedDataset → α) (cache : String) : List α :=
  files.map (fun path => convert (open_netcdf_dataset path cache))

/-- `nc_dir_to_tfdataset(nc_dir, convert, nfiles, shuffle, random_state, cache,
match)`.  `getFiles` models `get_nc_files`; `choice` models the resolved random
generator's non-replacement `choice` (used only when `shuffle` is set);
`matchFilter` models `re.search(match, basename)`.  The body resolves
`cache = cache or CACHE_DIR` but then calls `nc_files_to_tf_dataset` without
passing it, so the opened files always go through the default `CACHE_DIR`. -/
def nc_dir_to_tfdataset {α : Type} (getFiles : String → List String)
    (nc_dir : String) (convert : OpenedDataset → α) (nfiles : Option ℕ)
    (shuffle : Bool) (choice : List String → List String)
    (cache : Option String) (matchFilter : Option (String → Bool)) : List α :=
  let _cache := cache.getD CACHE_DIR
  let files := getFiles nc_dir
  let files := match matchFilter with
    | some m => files.filter m
    | none => files
  let files := if shuffle then choice files else files
  let files := match nfiles with
    | some n => files.take n
    | none => files
  nc_files_to_tf_dataset files convert CACHE_DIR

/-- `NCDirLoader` configuration dataclass. -/
structure NCDirLoader where
  url : String
  nfiles : Option ℕ := none
  shuffle : Bool := true
  seed : ℕ := 0

/-- `NCDirLoader.convert(ds, variables)` delegates to `to_tensor`. -/
def NCDirLoader.convert (_ : NCDirLoader) (ds : OpenedDataset)
    (variableNames : List String) : List (String × Tensor) :=
  to_tensor ds variableNames

/-- `NCDirLoader.open_tfdataset(local_download_path, variable_names)`.
`rngOfSeed` models `np.random.RandomState(self.seed).choice`. -/
def NCDirLoader.open_tfdataset (self : NCDirLoader)
    (getFiles : String → List String) (rngOfSeed : ℕ → List String → List String)
    (local_download_path : Option String) (variable_names : List String) :
    List (List (String × Tensor)) :=
  nc_dir_to_tfdataset getFiles self.url (fun x => self.convert x variable_names)
    self.nfiles self.shuffle (rngOfSeed self.seed) local_download_path none

/-! ## emulation/config.py

The `emulation._emulate.microphysics` and `emulation._monitor.monitor`
modules are not part of the sources; `Mask`, `always_right`, `TimeMask`,
`IntervalSchedule`, `MicrophysicsHook` and `StorageConfig` are modelled from
the spec. -/

/-- A Fortran-side state mapping (field name to array values). -/
def FortranState := List (String × List ℚ)

/-- Modelled from the spec: `IntervalSchedule` from the missing
`emulation._emulate.microphysics` module — scheduling by an interval of a
fixed period (whole seconds). -/
structure IntervalSchedule where
  period : ℕ

/-- Modelled from the spec: `Mask` from the missing
`emulation._emulate.microphysics` module — a policy applied at a time (seconds)
to the physics-computed state (left argument) and the emulator prediction
(right argument), returning the state to use. -/
def Mask : Type := ℕ → FortranState → FortranState → FortranState

/-- Modelled from the spec: `always_right` from the missing
`emulation._emulate.microphysics` module — the mask under which "the model is
used unconditionally": it always returns its right (emulator) argument. -/
def always_right : Mask := fun _ _ emulator => emulator

/-- Modelled from the spec: `TimeMask` from the missing
`emulation._emulate.microphysics` module — "The physics is used for the first
half of the interval, and the ML for the second half" (docstring of
`ModelConfig` in `emulation/config.py`). -/
def TimeMask (schedule : IntervalSchedule) : Mask :=
  fun time physics emulator =>
    if 2 * (time % schedule.period) < schedule.period then physics else emulator

/-- Modelled from the spec: `MicrophysicsHook` from the missing
`emulation._emulate.microphysics` module — a loaded model path wrapped with a
masking policy. -/
structure MicrophysicsHook where
  path : String
  mask : Mask

/-- Modelled from the spec: invoking the microphysics hook applies the mask to
the incoming physics state and the loaded model's prediction. -/
def MicrophysicsHook.microphysics (self : MicrophysicsHook)
    (model : String → FortranState → FortranState) (time : ℕ)
    (state : FortranState) : FortranState :=
  self.mask time state (model self.path state)

/-- `ModelConfig` dataclass from `emulation/config.py`. -/
structure ModelConfig where
  path : String
  online_schedule : Option IntervalSchedule := none

/-- `ModelConfig._build_mask`: `TimeMask(online_schedule)` when a schedule is
configured, else `always_right`. -/
def ModelConfig.build_mask (self : ModelConfig) : Mask :=
  match self.online_schedule with
  | some schedule => TimeMask schedule
  | none => always_right

/-- `ModelConfig.build()`: `MicrophysicsHook(self.path, mask=self._build_mask())`. -/
def ModelConfig.build (self : ModelConfig) : MicrophysicsHook :=
  ⟨self.path, self.build_mask⟩

/-- Modelled from the spec: `StorageConfig` from the missing
`emulation._monitor.monitor` module — keyword arguments for the storage hook. -/
structure StorageConfig where
  args : List (String × String)

/-- The three kinds of callables `emulation/config.py` hands to the host model:
`do_nothing`, a built microphysics hook's `.microphysics`, or a storage hook's
`.store`. -/
inductive Hook where
  | do_nothing
  | microphysics (hook : MicrophysicsHook)
  | store (storage : StorageConfig)

/-- `EmulationConfig` dataclass. -/
structure EmulationConfig where
  model : Option ModelConfig := none
  gscond : Option ModelConfig := none
  storage : Option StorageConfig := none

/-- `EmulationConfig._build_model`: `do_nothing` when no model is configured,
else the built hook's `.microphysics`. -/
def EmulationConfig.build_model_of (model : Option ModelConfig) : Hook :=
  match model with
  | none => Hook.do_nothing
  | some m => Hook.microphysics m.build

/-- `EmulationConfig.build_model_hook`. -/
def EmulationConfig.build_model_hook (self : EmulationConfig) : Hook :=
  EmulationConfig.build_model_of self.model

/-- `EmulationConfig.build_gscond_hook`. -/
def EmulationConfig.build_gscond_hook (self : EmulationConfig) : Hook :=
  EmulationConfig.build_model_of self.gscond

/-- `EmulationConfig.build_storage_hook`. -/
def EmulationConfig.build_storage_hook (self : EmulationConfig) : Hook :=
  match self.storage with
  | none => Hook.do_nothing
  | some s => Hook.store s

/-- The parsed `zhao_carr_emulation` sub-document.  `EmulationConfig.from_dict`
is dacite's structural parse of this mapping; an absent key parses to `none`,
the empty mapping parses to the all-default config. -/
structure EmulationConfigDict where
  model : Option ModelConfig := none
  gscond : Option ModelConfig := none
  storage : Option StorageConfig := none

/-- `EmulationConfig.from_dict`. -/
def EmulationConfig.from_dict (config : EmulationConfigDict) : EmulationConfig :=
  ⟨config.model, config.gscond, config.storage⟩

/-- The parsed top-level `fv3config.yml` document, as far as `get_hooks` reads
it: an association of top-level keys to sub-documents. -/
def Fv3ConfigYaml := List (String × EmulationConfigDict)

/-- `get_hooks()`: read `fv3config.yml` from the working directory (`none` when
the file does not exist, in which case a warning is logged — the `Bool` in the
result — and an empty mapping is used), look up `zhao_carr_emulation`
(defaulting to the empty mapping), and build the three hooks
(gscond, model, storage). -/
def get_hooks (file : Option Fv3ConfigYaml) : Bool × (Hook × Hook × Hook) :=
  let config_key := "zhao_carr_emulation"
  let warned := file.isNone
  let dict_ : Fv3ConfigYaml := file.getD []
  let sub : EmulationConfigDict := (dict_.lookup config_key).getD {}
  let config := EmulationConfig.from_dict sub
  (warned,
    (config.build_gscond_hook, config.build_model_hook,
      config.build_storage_hook))

/-! ## offline_ml_diags/_mapper.py -/

/-- `DELP` from `offline_ml_diags/_mapper.py`. -/
def DELP : String := "pressure_thickness_of_atmospheric_layer"

/-- `xr.zeros_like`: an array of zeros with the shape of the argument. -/
def zeros_like (a : List ℚ) : List ℚ :=
  a.map (fun _ => 0)

/-- Result of resolving one requested variable in
`PredictionMapper.__getitem__`: either a value (with a flag recording whether
the zeros-filling warning was emitted), or a key-lookup failure naming the
offending key. -/
inductive ResolveResult where
  | ok (value : List ℚ) (warned : Bool)
  | err (key : String)
  deriving DecidableEq

/-- The per-variable `try`/`except KeyError` body of
`PredictionMapper.__getitem__`: look the key up in the derived mapping; on a
key-lookup failure re-raise for `DELP`, fill `pQ1`/`pQ2` with zeros shaped like
the derived `dQ1` and warn, and re-raise for any other key. -/
def resolve_variable (derived_mapping : String → Option (List ℚ))
    (key : String) : ResolveResult :=
  match derived_mapping key with
  | some value => ResolveResult.ok value false
  | none =>
    if key = DELP then ResolveResult.err key
    else if key = "pQ1" ∨ key = "pQ2" then
      match derived_mapping "dQ1" with
      | some dq1 => ResolveResult.ok (zeros_like dq1) true
      | none => ResolveResult.err "dQ1"
    else ResolveResult.err key

/-- The resolution loop of `PredictionMapper.__getitem__` over the requested
variable list: fails on the first fatal key, otherwise returns the resolved
dataset. -/
def resolve_variables (derived_mapping : String → Option (List ℚ)) :
    List String → Except String (List (String × List ℚ))
  | [] => Except.ok []
  | key :: rest =>
    match resolve_variable derived_mapping key with
    | ResolveResult.ok value _ =>
      (resolve_variables derived_mapping rest).map
        (fun tail => (key, value) :: tail)
    | ResolveResult.err k => Except.error k

/-! ## loaders/_utils.py -/

/-- `_get_chunk_indices(chunks)`: consecutive index ranges, one per chunk,
starting at 0. -/
def get_chunk_indices (chunks : List ℕ) : List (List ℕ) :=
  go 0 chunks
where
  /-- The running-`start` loop of `_get_chunk_indices`. -/
  go (start : ℕ) : List ℕ → List (List ℕ)
  | [] => []
  | chunk :: rest => List.range' start chunk :: go (start + chunk) rest

/-- The shuffled index vector built by `shuffled`:
`np.concatenate([random.permutation(indices) for indices in chunk_indices])`. -/
def shuffled_inds (random : List ℕ → List ℕ) (chunks : List ℕ) : List ℕ :=
  (List.map random (get_chunk_indices chunks)).flatten

/-- A dataset along one dimension: its values and optional chunk metadata. -/
structure ChunkedData where
  data : List ℚ
  chunks : Option (List ℕ) := none

/-- The chunk sizes `shuffled` uses: `dataset.chunks.get(dim, (len(dataset[dim]),))`. -/
def ChunkedData.chunksOf (dataset : ChunkedData) : List ℕ :=
  dataset.chunks.getD [dataset.data.length]

/-- `shuffled(dataset, dim, random)`: select `shuffled_inds` along the
dimension (`dataset.isel({dim: shuffled_inds})`). -/
def shuffled (dataset : ChunkedData) (random : List ℕ → List ℕ) : List ℚ :=
  (shuffled_inds random dataset.chunksOf).map (fun i => dataset.data.getD i 0)

/-- Start offset of chunk `c`: the total size of the preceding chunks. -/
def chunkStart (chunks : List ℕ) (c : ℕ) : ℕ :=
  ((chunks.take c).sum)

/-! ## fv3net/regression/keras/_packer.py

`_pack`/`_unpack` live in `..sklearn.wrapper`, which is not part of the
sources; they are modelled from the spec.  A dataset is an association of
variable names to per-sample feature rows (a variable already flattened
across its feature/vertical dimension; a variable with only the sample
dimension has width-1 rows). -/

/-- A packed 2-D (sample × feature) array: a list of sample rows. -/
def Array2D := List (List ℚ)

/-- The recorded multi-level feature index: one `(variable name, offset within
variable)` pair per column of the packed array. -/
def FeatureIndices := List (String × ℕ)

/-- Width of a variable (its per-sample flattened feature length), read off the
data. -/
def varWidth (rows : List (List ℚ)) : ℕ :=
  (rows.headD []).length

/-- `dataset[self.names]`: select the named variables in order; `none` (a
key-lookup failure) if one is absent. -/
def select_variables (dataset : List (String × List (List ℚ))) :
    List String → Option (List (String × List (List ℚ)))
  | [] => some []
  | n :: rest =>
    match dataset.lookup n, select_variables dataset rest with
    | some rows, some tail => some ((n, rows) :: tail)
    | _, _ => none

/-- Modelled from the spec: `_pack(dataset[names], sample_dim)` from the
missing `fv3net.regression.sklearn.wrapper` module — pack the named variables
in order into one 2-D (sample × feature) array by concatenating each sample's
per-variable feature rows, and record the multi-level feature index
(variable name × within-variable offset).  Returns `none` if a name is absent
from the dataset. -/
def pack_dataset (names : List String)
    (dataset : List (String × List (List ℚ))) :
    Option (Array2D × FeatureIndices) :=
  match select_variables dataset names with
  | none => none
  | some vars =>
    let nsamples := ((vars.headD ("", [])).2).length
    let packed := vars.foldr (fun v acc => List.zipWith (· ++ ·) v.2 acc)
      (List.replicate nsamples [])
    let indices := vars.flatMap
      (fun v => (List.range (varWidth v.2)).map (fun o => (v.1, o)))
    some (packed, indices)

/-- Modelled from the spec: `_unpack(array, sample_dim, indices)` from the
missing `fv3net.regression.sklearn.wrapper` module — the exact inverse of
packing: walk the recorded feature index, and for each variable-name block
slice off that many leading columns of every sample row. -/
def unpack_array (rows : List (List ℚ)) (indices : List (String × ℕ)) :
    List (String × List (List ℚ)) :=
  match h : indices with
  | [] => []
  | (n, o) :: rest =>
    let w := (indices.takeWhile (fun q => q.1 == n)).length
    (n, rows.map (fun r => List.take w r)) ::
      unpack_array (rows.map (fun r => List.drop w r)) (indices.drop w)
termination_by indices.length
decreasing_by
  subst h
  have hw : 0 < (List.takeWhile (fun q : String × ℕ => q.1 == n)
      ((n, o) :: rest)).length := by
    simp [List.takeWhile_cons]
  simp only [List.length_drop, List.length_cons]
  omega

/-- `ArrayPacker` state: sample-dimension name, ordered variable names, and
the feature index recorded on first packing (`None` before). -/
structure ArrayPacker where
  sample_dim_name : String
  names : List String
  indices : Option FeatureIndices := none

/-- `ArrayPacker.to_array(dataset)`: pack `dataset[self.names]`; record the
feature index if none is recorded yet.  Returns the packed array and the
updated packer state. -/
def ArrayPacker.to_array (self : ArrayPacker)
    (dataset : List (String × List (List ℚ))) :
    Option (Array2D × ArrayPacker) :=
  match pack_dataset self.names dataset with
  | none => none
  | some (packed, indices) =>
    some (packed,
      { self with indices := some (self.indices.getD indices) })

/-- The message of the `RuntimeError` raised by `ArrayPacker.to_dataset`
before any packing. -/
def mustPackMessage : String :=
  "must pack at least once before unpacking, so dimension lengths are known"

/-- `ArrayPacker.to_dataset(array)`: fails with a state error when no feature
index has been recorded, else unpacks. -/
def ArrayPacker.to_dataset (self : ArrayPacker) (array : Array2D) :
    Except String (List (String × List (List ℚ))) :=
  match self.indices with
  | none => Except.error mustPackMessage
  | some indices => Except.ok (unpack_array array indices)

/-! ## fv3fit/reservoir/domain.py

`RankDivider` and its operations, over a shaped-array model of numpy.
`pace.util.TilePartitioner` is a third-party dependency; `subtile_slice` is
modelled from its documented contract (rank-major subtile geometry: within the
layout grid, rank `r` has x-block `r % layout[1]` with x extents split by
`layout[1]`, and y-block `r // layout[1]` with y extents split by `layout[0]`;
non-horizontal dimensions get the full extent). -/

/-- A Python `slice(start, stop)` with nonnegative bounds. -/
structure PySlice where
  start : ℕ
  stop : ℕ
  deriving DecidableEq

/-- `pace.util.TilePartitioner(layout).subtile_slice(rank, global_dims,
global_extent)` (third-party contract). -/
def subtile_slice (layout : ℕ × ℕ) (rank : ℕ) (global_dims : List String)
    (global_extent : List ℕ) : List PySlice :=
  let within := rank % (layout.1 * layout.2)
  let j := within / layout.2
  let i := within % layout.2
  (global_dims.zip global_extent).map (fun de =>
    if de.1 = "x" then ⟨i * (de.2 / layout.2), (i + 1) * (de.2 / layout.2)⟩
    else if de.1 = "y" then ⟨j * (de.2 / layout.1), (j + 1) * (de.2 / layout.1)⟩
    else ⟨0, de.2⟩)

/-- An n-dimensional numpy array: a shape and the row-major (C-order) flat
data. -/
structure NDArray where
  shape : List ℕ
  data : List ℚ
  deriving DecidableEq

/-- A gather: `n` output elements, element `k` read from the source at index
`σ k` (0 when out of range, which never happens in the uses below). -/
def gather (src : List ℚ) (n : ℕ) (σ : ℕ → ℕ) : List ℚ :=
  (List.range n).map (fun k => src.getD (σ k) 0)

/-- `slice_along_axis(arr, inds, axis)` from `fv3fit/reservoir/domain.py`:
`arr[:, ..., inds, ..., :]` with `inds` at position `axis` (numpy basic
slicing, bounds clamped to the axis length). -/
def slice_along_axis (a : NDArray) (inds : PySlice) (axis : ℕ) : NDArray :=
  let d := a.shape.getD axis 0
  let lo := min inds.start d
  let hi := min inds.stop d
  let w := hi - lo
  let inner := (a.shape.drop (axis + 1)).prod
  let outer := (a.shape.take axis).prod
  ⟨a.shape.take axis ++ [w] ++ a.shape.drop (axis + 1),
    gather a.data (outer * w * inner) (fun k =>
      (k / inner / w * d + (lo + k / inner % w)) * inner + k % inner)⟩

/-- `np.stack(columns, axis=-1)` for equal-length 1-D columns. -/
def np_stack_last (cols : List NDArray) : NDArray :=
  let m := (cols.headD ⟨[0], []⟩).data.length
  let k := cols.length
  ⟨[m, k], (List.range (m * k)).map (fun u =>
    ((cols.getD (u % k) ⟨[0], []⟩).data).getD (u / k) 0)⟩

/-- Column `s` of a 2-D array (`a[:, s]`). -/
def NDArray.col (a : NDArray) (s : ℕ) : NDArray :=
  ⟨[a.shape.getD 0 0],
    gather a.data (a.shape.getD 0 0) (fun f => f * a.shape.getD 1 0 + s)⟩

/-- `np.concatenate` of 1-D arrays. -/
def np_concat_1d (arrs : List NDArray) : NDArray :=
  ⟨[(arrs.map (fun a => a.data.length)).sum], (arrs.map (fun a => a.data)).flatten⟩

/-- `np.concatenate(a, axis)`: concatenate the first-axis slices of `a` along
`axis` (an axis of the slices). -/
def np_concat_first (a : NDArray) (axis : ℕ) : NDArray :=
  match a.shape with
  | [] => a
  | s0 :: rest =>
    let w := rest.getD axis 0
    let inner := (rest.drop (axis + 1)).prod
    let outer := (rest.take axis).prod
    let blockLen := rest.prod
    ⟨rest.take axis ++ [s0 * w] ++ rest.drop (axis + 1),
      gather a.data (outer * (s0 * w) * inner) (fun k =>
        (k / inner % (s0 * w) / w) * blockLen +
          (k / inner / (s0 * w) * w + k / inner % (s0 * w) % w) * inner +
          k % inner)⟩

/-- The flat-prediction splitter from `fv3fit.reservoir._reshaping`.
Modelled from the spec: `split_1d_samples_into_2d_rows(arr, n_rows)` splits a
1-D array into `n_rows` equal consecutive rows (the module is not part of the
sources; the spec says merge must "split the flat 1-D prediction into
`n_subdomains` equal rows"). -/
def split_1d_samples_into_2d_rows (a : NDArray) (n_rows : ℕ) : List NDArray :=
  let m := a.data.length / n_rows
  (List.range n_rows).map (fun r => ⟨[m], gather a.data m (fun u => r * m + u)⟩)

/-- `RankDivider(subdomain_layout, rank_dims, rank_extent, overlap)`. -/
structure RankDivider where
  subdomain_layout : ℕ × ℕ
  rank_dims : List String
  rank_extent : List ℕ
  overlap : ℕ

/-- `self._x_ind = rank_dims.index("x")`. -/
def RankDivider.x_ind (d : RankDivider) : ℕ :=
  d.rank_dims.indexOf "x"

/-- `self._y_ind = rank_dims.index("y")`. -/
def RankDivider.y_ind (d : RankDivider) : ℕ :=
  d.rank_dims.indexOf "y"

/-- `self.n_subdomains = subdomain_layout[0] * subdomain_layout[1]`. -/
def RankDivider.n_subdomains (d : RankDivider) : ℕ :=
  d.subdomain_layout.1 * d.subdomain_layout.2

/-- `self._get_rank_extent_without_overlap(rank_extent, overlap)`: subtract
`2 * overlap` from the x and y entries. -/
def RankDivider.rank_extent_without_overlap (d : RankDivider) : List ℕ :=
  let l1 := d.rank_extent.set d.x_ind (d.rank_extent.getD d.x_ind 0 - 2 * d.overlap)
  l1.set d.y_ind (l1.getD d.y_ind 0 - 2 * d.overlap)

/-- `subdomain_xy_size_without_overlap`: de-haloed x extent over
`subdomain_layout[0]`. -/
def RankDivider.subdomain_xy_size_without_overlap (d : RankDivider) : ℕ :=
  d.rank_extent_without_overlap.getD d.x_ind 0 / d.subdomain_layout.1

/-- `get_subdomain_extent(with_overlap)`. -/
def RankDivider.get_subdomain_extent (d : RankDivider) (with_overlap : Bool) :
    List ℕ :=
  let sz := d.subdomain_xy_size_without_overlap +
    (if with_overlap then 2 * d.overlap else 0)
  (d.rank_extent.set d.x_ind sz).set d.y_ind sz

/-- `subdomain_slice(subdomain_index, with_overlap)`: the partitioner's
subtile slice over the de-haloed extent, then stop extended by `2 * overlap`
(`with_overlap=True`) or both bounds shifted by `+overlap`
(`with_overlap=False`). -/
def RankDivider.subdomain_slice (d : RankDivider) (subdomain_index : ℕ)
    (with_overlap : Bool) : List PySlice :=
  let slice_ := subtile_slice d.subdomain_layout subdomain_index d.rank_dims
    d.rank_extent_without_overlap
  let xs := slice_.getD d.x_ind ⟨0, 0⟩
  let ys := slice_.getD d.y_ind ⟨0, 0⟩
  let xs2 := if with_overlap then PySlice.mk xs.start (xs.stop + 2 * d.overlap)
    else PySlice.mk (xs.start + d.overlap) (xs.stop + d.overlap)
  let ys2 := if with_overlap then PySlice.mk ys.start (ys.stop + 2 * d.overlap)
    else PySlice.mk (ys.start + d.overlap) (ys.stop + d.overlap)
  (slice_.set d.x_ind xs2).set d.y_ind ys2

/-- `get_subdomain_tensor_slice(tensor_data, subdomain_index, with_overlap)`:
validate the first two dims against `rank_extent`, then slice along x and y. -/
def RankDivider.get_subdomain_tensor_slice (d : RankDivider) (tensor : NDArray)
    (subdomain_index : ℕ) (with_overlap : Bool) : Except String NDArray :=
  if tensor.shape.take 2 ≠ d.rank_extent then
    Except.error "Data array being divided must be of rank shape"
  else
    let sl := d.subdomain_slice subdomain_index with_overlap
    Except.ok (slice_along_axis
      (slice_along_axis tensor (sl.getD d.x_ind ⟨0, 0⟩) d.x_ind)
      (sl.getD d.y_ind ⟨0, 0⟩) d.y_ind)

/-- `np.reshape(x, -1)`: flatten to 1-D. -/
def NDArray.reshape_flat (a : NDArray) : NDArray :=
  ⟨[a.data.length], a.data⟩

/-- The loop of `flatten_subdomains_to_columns` collecting each subdomain's
flattened column, propagating the shape-validation error. -/
def RankDivider.subdomain_cols (d : RankDivider) (data : NDArray)
    (with_overlap : Bool) : List ℕ → Except String (List NDArray)
  | [] => Except.ok []
  | s :: rest =>
    match d.get_subdomain_tensor_slice data s with_overlap,
        d.subdomain_cols data with_overlap rest with
    | Except.ok a, Except.ok tail => Except.ok (a.reshape_flat :: tail)
    | Except.error e, _ => Except.error e
    | _, Except.error e => Except.error e

/-- `flatten_subdomains_to_columns(data, with_overlap)`: flatten every
subdomain and stack the flat columns along a new trailing axis. -/
def RankDivider.flatten_subdomains_to_columns (d : RankDivider)
    (data : NDArray) (with_overlap : Bool) : Except String NDArray :=
  match d.subdomain_cols data with_overlap (List.range d.n_subdomains) with
  | Except.error e => Except.error e
  | Except.ok cols => Except.ok (np_stack_last cols)

/-- The claimed driver step: concatenate the subdomain columns of the stacked
(feature × subdomain) array in subdomain-index order into one 1-D vector. -/
def concat_columns (a : NDArray) : NDArray :=
  np_concat_1d ((List.range (a.shape.getD 1 0)).map (fun s => a.col s))

/-- `unstack_subdomain(tensor, with_overlap)`: validate the flat length and
reshape back to (x, y[, z]), dropping the feature axis when it has size 1. -/
def RankDivider.unstack_subdomain (d : RankDivider) (tensor : NDArray)
    (with_overlap : Bool) : Except String NDArray :=
  let vertical_dim_size := tensor.data.length /
    (d.get_subdomain_extent with_overlap).prod
  let subdomain_xy_shape := d.get_subdomain_extent with_overlap
  let unstacked_shape := subdomain_xy_shape ++ [vertical_dim_size]
  let expected_stacked_size := unstacked_shape.prod
  if tensor.shape.getLastD 0 ≠ expected_stacked_size then
    Except.error "Dimension of each stacked sample expected to be"
  else
    Except.ok ⟨if vertical_dim_size = 1 then subdomain_xy_shape
      else unstacked_shape, tensor.data⟩

/-- The loop of `merge_subdomains` un-stacking every subdomain row. -/
def RankDivider.unstack_rows (d : RankDivider) :
    List NDArray → Except String (List NDArray)
  | [] => Except.ok []
  | r :: rest =>
    match d.unstack_subdomain r false, d.unstack_rows rest with
    | Except.ok a, Except.ok tail => Except.ok (a :: tail)
    | Except.error e, _ => Except.error e
    | _, Except.error e => Except.error e

/-- `merge_subdomains(flat_prediction)`: split into `n_subdomains` rows,
un-stack each, reshape the stack of subdomains into
`(layout[0], layout[1], subdomain_x, subdomain_y, vertical)` blocks, then
concatenate along axis 2 and axis 0. -/
def RankDivider.merge_subdomains (d : RankDivider) (flat_prediction : NDArray) :
    Except String NDArray :=
  let subdomain_rows := split_1d_samples_into_2d_rows flat_prediction
    d.n_subdomains
  match d.unstack_rows subdomain_rows with
  | Except.error e => Except.error e
  | Except.ok preds =>
    let s := d.subdomain_xy_size_without_overlap
    let vertical_dim_size := flat_prediction.data.length /
      (d.n_subdomains * s ^ 2)
    let z_block_dims := [d.subdomain_layout.1, d.subdomain_layout.2, s, s,
      vertical_dim_size]
    let domain_z_blocks : NDArray :=
      ⟨z_block_dims, (preds.map (fun p => p.data)).flatten⟩
    Except.ok (np_concat_first (np_concat_first domain_z_blocks 2) 0)

/-- The flat gather map realized by slicing subdomain `s` (halo-free, square
`L × L` layout, subdomain side `t`, feature depth `vz`) out of a row-major
`(L*t, L*t, vz)` array and flattening it: position `u` of the flat subdomain
column reads the source at `sigmaCol L t vz s u`. -/
def sigmaCol (L t vz s u : ℕ) : ℕ :=
  ((s % L * t + u / vz / t) * (L * t) + (s / L * t + u / vz % t)) * vz + u % vz

/-! ### Claims C3 and C8 -/

/-- C3: every element of `precipitation_sum(physics_precip, column_dq2, dt)` is
nonnegative; it equals `physics_precip + (-column_dq2 * dt / 1000)` wherever that
sum is nonnegative and `0` wherever that sum is negative. -/
theorem precipitation_sum_nonneg_clamp (p d : List ℚ) (dt : ℚ) (i : ℕ)
    (hp : i < p.length) (hd : i < d.length) :
    ∃ hi : i < (precipitation_sum p d dt).length,
      0 ≤ (precipitation_sum p d dt)[i] ∧
      (0 ≤ p[i] + (-d[i] * dt * (1 / 1000)) →
        (precipitation_sum p d dt)[i] = p[i] + (-d[i] * dt * (1 / 1000))) ∧
      (p[i] + (-d[i] * dt * (1 / 1000)) < 0 →
        (precipitation_sum p d dt)[i] = 0) := by
  have hi : i < (precipitation_sum p d dt).length := by
    simpa [precipitation_sum] using lt_min hp hd
  refine ⟨hi, ?_⟩
  have hz : i < (List.zipWith
      (fun p q => p + (-q * dt * (1 / 1000 : ℚ))) p d).length := by
    simpa using lt_min hp hd
  have hval : (precipitation_sum p d dt)[i] =
      if 0 ≤ p[i] + (-d[i] * dt * (1 / 1000 : ℚ)) then
        p[i] + (-d[i] * dt * (1 / 1000)) else 0 := by
    simp [precipitation_sum]
  rw [hval]
  refine ⟨?_, ?_, ?_⟩
  · split
    · assumption
    · exact le_rfl
  · intro h; rw [if_pos h]
  · intro h; rw [if_neg (not_le.mpr h)]

/-- C3 witness. -/
theorem precipitation_sum_nonneg_clamp_witness :
    (0 : ℕ) < ([(1 : ℚ)] : List ℚ).length ∧
    ∃ hi : 0 < (precipitation_sum [(1 : ℚ)] [(5000 : ℚ)] 1).length,
      0 ≤ (precipitation_sum [(1 : ℚ)] [(5000 : ℚ)] 1)[0] ∧
      (0 ≤ (1 : ℚ) + (-5000 * 1 * (1 / 1000)) →
        (precipitation_sum [(1 : ℚ)] [(5000 : ℚ)] 1)[0] =
          (1 : ℚ) + (-5000 * 1 * (1 / 1000))) ∧
      ((1 : ℚ) + (-5000 * 1 * (1 / 1000)) < 0 →
        (precipitation_sum [(1 : ℚ)] [(5000 : ℚ)] 1)[0] = 0) := by
  refine ⟨by decide, ?_⟩
  have h := precipitation_sum_nonneg_clamp [(1 : ℚ)] [(5000 : ℚ)] 1 0
    (by decide) (by decide)
  simpa using h

/-- C8: `precipitation_accumulation` and `precipitation_rate` are mutually
inverse for every nonzero timestep `dt`, with conversion factor
`KG_PER_M2_PER_M = 1000`. -/
theorem precipitation_rate_accumulation_inverse (r a : List ℚ) (dt : ℚ)
    (hdt : dt ≠ 0) :
    precipitation_rate (precipitation_accumulation r dt) dt = r ∧
    precipitation_accumulation (precipitation_rate a dt) dt = a ∧
    KG_PER_M2_PER_M = 1000 := by
  have h1000 : (KG_PER_M2_PER_M : ℚ) ≠ 0 := by norm_num [KG_PER_M2_PER_M]
  refine ⟨?_, ?_, rfl⟩
  · unfold precipitation_rate precipitation_accumulation
    rw [List.map_map]
    have : ∀ x ∈ r, KG_PER_M2_PER_M * (x * dt / KG_PER_M2_PER_M) / dt = x := by
      intro x _
      field_simp
    calc r.map ((fun a => KG_PER_M2_PER_M * a / dt) ∘
            fun r => r * dt / KG_PER_M2_PER_M)
        = r.map id := List.map_congr_left this
      _ = r := List.map_id r
  · unfold precipitation_rate precipitation_accumulation
    rw [List.map_map]
    have : ∀ x ∈ a, KG_PER_M2_PER_M * x / dt * dt / KG_PER_M2_PER_M = x := by
      intro x _
      field_simp
    calc a.map ((fun r => r * dt / KG_PER_M2_PER_M) ∘
            fun a => KG_PER_M2_PER_M * a / dt)
        = a.map id := List.map_congr_left this
      _ = a := List.map_id a

/-- C8 witness. -/
theorem precipitation_rate_accumulation_inverse_witness :
    (2 : ℚ) ≠ 0 ∧
    (precipitation_rate (precipitation_accumulation [(3 : ℚ)] 2) 2 = [(3 : ℚ)] ∧
     precipitation_accumulation (precipitation_rate [(7 : ℚ)] 2) 2 = [(7 : ℚ)] ∧
     KG_PER_M2_PER_M = 1000) :=
  ⟨by norm_num, precipitation_rate_accumulation_inverse [3] [7] 2 (by norm_num)⟩

/-! ### Claim C10 -/

/-- C10: the `cache` argument of `nc_dir_to_tfdataset` has no effect on its
result, and consequently the `local_download_path` argument of
`NCDirLoader.open_tfdataset` is ignored. -/
theorem nc_dir_to_tfdataset_cache_unused {α : Type}
    (getFiles : String → List String) (nc_dir : String)
    (convert : OpenedDataset → α) (nfiles : Option ℕ) (shuffle : Bool)
    (choice : List String → List String)
    (matchFilter : Option (String → Bool)) (cache₁ cache₂ : Option String)
    (loader : NCDirLoader) (rngOfSeed : ℕ → List String → List String)
    (path₁ path₂ : Option String) (variableNames : List String) :
    nc_dir_to_tfdataset getFiles nc_dir convert nfiles shuffle choice cache₁
        matchFilter =
      nc_dir_to_tfdataset getFiles nc_dir convert nfiles shuffle choice cache₂
        matchFilter ∧
    loader.open_tfdataset getFiles rngOfSeed path₁ variableNames =
      loader.open_tfdataset getFiles rngOfSeed path₂ variableNames :=
  ⟨rfl, rfl⟩

/-! ### Claim C4 -/

/-- C4: when a `ModelConfig` has no `online_schedule`, the mask built by
`ModelConfig._build_mask` routes every call to the emulator ("right") argument,
and hence the hook produced by `ModelConfig.build` always returns the loaded
model's prediction rather than the physics state. -/
theorem no_schedule_mask_always_ml (config : ModelConfig)
    (h : config.online_schedule = none) :
    (∀ (time : ℕ) (physics emulator : FortranState),
      config.build_mask time physics emulator = emulator) ∧
    (∀ (model : String → FortranState → FortranState) (time : ℕ)
        (state : FortranState),
      config.build.microphysics model time state = model config.path state) := by
  constructor <;> intros <;>
    simp [ModelConfig.build, ModelConfig.build_mask, h, always_right,
      MicrophysicsHook.microphysics]

/-- C4 witness. -/
theorem no_schedule_mask_always_ml_witness :
    ({ path := "gs://model", online_schedule := none } : ModelConfig).online_schedule
        = none ∧
    ((∀ (time : ℕ) (physics emulator : FortranState),
      ({ path := "gs://model", online_schedule := none } : ModelConfig).build_mask
          time physics emulator = emulator) ∧
     (∀ (model : String → FortranState → FortranState) (time : ℕ)
        (state : FortranState),
      ({ path := "gs://model", online_schedule := none } : ModelConfig).build.microphysics
          model time state =
        model ({ path := "gs://model", online_schedule := none } : ModelConfig).path
          state)) :=
  ⟨rfl, no_schedule_mask_always_ml _ rfl⟩

/-! ### Claim C5 -/

/-- C5: `get_hooks` with a missing `fv3config.yml` logs a warning and returns
three no-op hooks; the same all-default behavior results when the file exists
but lacks the `zhao_carr_emulation` key (without the warning). -/
theorem get_hooks_missing_file_defaults :
    get_hooks none =
      (true, (Hook.do_nothing, Hook.do_nothing, Hook.do_nothing)) ∧
    ∀ yaml : Fv3ConfigYaml, yaml.lookup "zhao_carr_emulation" = none →
      get_hooks (some yaml) =
        (false, (Hook.do_nothing, Hook.do_nothing, Hook.do_nothing)) := by
  constructor
  · rfl
  · intro yaml hy
    simp [get_hooks, hy, EmulationConfig.from_dict,
      EmulationConfig.build_gscond_hook, EmulationConfig.build_model_hook,
      EmulationConfig.build_storage_hook, EmulationConfig.build_model_of]

/-- C5 witness. -/
theorem get_hooks_missing_file_defaults_witness :
    ([("namelist", ({} : EmulationConfigDict))] : Fv3ConfigYaml).lookup
        "zhao_carr_emulation" = none ∧
    get_hooks (some [("namelist", ({} : EmulationConfigDict))]) =
      (false, (Hook.do_nothing, Hook.do_nothing, Hook.do_nothing)) :=
  ⟨rfl, get_hooks_missing_file_defaults.2 _ rfl⟩

/-! ### Claim C9 -/

/-- C9: in `PredictionMapper.__getitem__`, a requested variable that is neither
present nor derivable is filled with zeros shaped like the derived `dQ1` plus a
warning when it is `pQ1`/`pQ2`; the lookup fails for `DELP`
(re-raising the key error) and for any other variable name. -/
theorem prediction_mapper_missing_variable
    (derived_mapping : String → Option (List ℚ)) (key : String)
    (h : derived_mapping key = none) :
    ((key = "pQ1" ∨ key = "pQ2") → ∀ dq1, derived_mapping "dQ1" = some dq1 →
      resolve_variable derived_mapping key =
        ResolveResult.ok (zeros_like dq1) true) ∧
    (key = DELP →
      resolve_variable derived_mapping key = ResolveResult.err key) ∧
    (key ≠ DELP → ¬(key = "pQ1" ∨ key = "pQ2") →
      resolve_variable derived_mapping key = ResolveResult.err key) := by
  refine ⟨?_, ?_, ?_⟩
  · intro hk dq1 hd
    have hne : ¬key = DELP := by
      rcases hk with h1 | h1 <;> subst h1 <;> decide
    simp [resolve_variable, h, hne, hk, hd]
  · intro hk
    subst hk
    simp [resolve_variable, h]
  · intro h1 h2
    simp [resolve_variable, h, h1, h2]

/-- C9 witness (the `pQ1` zeros-with-warning case at a concrete mapping). -/
theorem prediction_mapper_missing_variable_witness :
    (fun k => if k = "dQ1" then some [(1 : ℚ), 2] else none) "pQ1" = none ∧
    resolve_variable
        (fun k => if k = "dQ1" then some [(1 : ℚ), 2] else none) "pQ1" =
      ResolveResult.ok (zeros_like [(1 : ℚ), 2]) true := by
  refine ⟨by decide, ?_⟩
  exact (prediction_mapper_missing_variable
      (fun k => if k = "dQ1" then some [(1 : ℚ), 2] else none) "pQ1"
      (by decide)).1 (Or.inl rfl) [(1 : ℚ), 2] (by decide)


/-! ### Claim C7 -/

/-- Helper for C7: the blocks produced by the running-start loop keep every
drawn index inside the chunk interval of its output position. -/
theorem shuffled_go_chunk_membership (random : List ℕ → List ℕ)
    (hperm : ∀ l, List.Perm (random l) l) :
    ∀ (chunks : List ℕ) (start p : ℕ),
      p < ((List.map random (get_chunk_indices.go start chunks)).flatten).length →
      ∃ c : ℕ, ∃ hc : c < chunks.length,
        (chunks.take c).sum ≤ p ∧
        p < (chunks.take c).sum + chunks[c] ∧
        start + (chunks.take c).sum ≤
          ((List.map random (get_chunk_indices.go start chunks)).flatten).getD p 0 ∧
        ((List.map random (get_chunk_indices.go start chunks)).flatten).getD p 0 <
          start + (chunks.take c).sum + chunks[c] := by
  intro chunks
  induction chunks with
  | nil =>
    intro start p hp
    simp [get_chunk_indices.go] at hp
  | cons chunk rest ih =>
    intro start p hp
    have hblock : (random (List.range' start chunk)).length = chunk := by
      rw [(hperm (List.range' start chunk)).length_eq, List.length_range']
    have hflat : ((List.map random
        (get_chunk_indices.go start (chunk :: rest))).flatten) =
        random (List.range' start chunk) ++
          (List.map random (get_chunk_indices.go (start + chunk) rest)).flatten := by
      simp [get_chunk_indices.go]
    rw [hflat] at hp ⊢
    rw [List.length_append, hblock] at hp
    by_cases hpc : p < chunk
    · have hpb : p < (random (List.range' start chunk)).length := by omega
      have hval : (random (List.range' start chunk) ++
          (List.map random (get_chunk_indices.go (start + chunk) rest)).flatten).getD
            p 0 = (random (List.range' start chunk)).getD p 0 :=
        List.getD_append _ _ _ _ hpb
      have hmem : (random (List.range' start chunk)).getD p 0 ∈
          List.range' start chunk := by
        rw [List.getD_eq_getElem _ _ hpb]
        exact ((hperm _).mem_iff).mp (List.getElem_mem _)
      have hrange := (List.mem_range'_1).mp hmem
      refine ⟨0, by simp, by simp, by simpa using hpc, ?_, ?_⟩
      · rw [hval]
        simpa using hrange.1
      · rw [hval]
        simpa using hrange.2
    · push_neg at hpc
      have hlen : p - chunk <
          ((List.map random (get_chunk_indices.go (start + chunk) rest)).flatten).length := by
        omega
      obtain ⟨c, hc, h1, h2, h3, h4⟩ := ih (start + chunk) (p - chunk) hlen
      have hval : (random (List.range' start chunk) ++
          (List.map random (get_chunk_indices.go (start + chunk) rest)).flatten).getD
            p 0 =
          ((List.map random
            (get_chunk_indices.go (start + chunk) rest)).flatten).getD (p - chunk) 0 := by
        rw [List.getD_append_right _ _ _ _ (by omega), hblock]
      refine ⟨c + 1, by simpa using Nat.succ_lt_succ hc, ?_, ?_, ?_, ?_⟩
      · simp only [List.take_succ_cons, List.sum_cons]
        omega
      · simp only [List.take_succ_cons, List.sum_cons, List.getElem_cons_succ]
        omega
      · rw [hval]
        simp only [List.take_succ_cons, List.sum_cons]
        omega
      · rw [hval]
        simp only [List.take_succ_cons, List.sum_cons, List.getElem_cons_succ]
        omega

/-- C7: `shuffled` never moves a sample across its original chunk boundary —
for every output position, the source index it draws from lies in the same
chunk interval (chunk sizes from the dataset's chunking metadata, defaulting to
one whole-dimension chunk), and the output value is the input value at that
source index. -/
theorem shuffled_preserves_chunk_membership (dataset : ChunkedData)
    (random : List ℕ → List ℕ) (hperm : ∀ l, List.Perm (random l) l)
    (p : ℕ) (hp : p < (shuffled_inds random dataset.chunksOf).length) :
    (∃ c : ℕ, ∃ hc : c < dataset.chunksOf.length,
      chunkStart dataset.chunksOf c ≤ p ∧
      p < chunkStart dataset.chunksOf c + dataset.chunksOf[c] ∧
      chunkStart dataset.chunksOf c ≤
        (shuffled_inds random dataset.chunksOf).getD p 0 ∧
      (shuffled_inds random dataset.chunksOf).getD p 0 <
        chunkStart dataset.chunksOf c + dataset.chunksOf[c]) ∧
    (shuffled dataset random).getD p 0 =
      dataset.data.getD ((shuffled_inds random dataset.chunksOf).getD p 0) 0 := by
  constructor
  · have hp' : p < ((List.map random
        (get_chunk_indices.go 0 dataset.chunksOf)).flatten).length := by
      simpa [shuffled_inds, get_chunk_indices] using hp
    obtain ⟨c, hc, h1, h2, h3, h4⟩ :=
      shuffled_go_chunk_membership random hperm dataset.chunksOf 0 p hp'
    refine ⟨c, hc, h1, h2, ?_, ?_⟩
    · simpa [chunkStart, shuffled_inds, get_chunk_indices] using h3
    · simpa [chunkStart, shuffled_inds, get_chunk_indices] using h4
  · rw [List.getD_eq_getElem _ _ (by simpa [shuffled] using hp)]
    rw [List.getD_eq_getElem _ _ hp]
    simp [shuffled]

/-- C7 witness (identity permutation on chunks `[2, 1]`, position `1`). -/
theorem shuffled_preserves_chunk_membership_witness :
    (∀ l : List ℕ, List.Perm (id l) l) ∧
    (1 : ℕ) < (shuffled_inds id
      (ChunkedData.chunksOf ⟨[(5 : ℚ), 6, 7], some [2, 1]⟩)).length ∧
    ((∃ c : ℕ, ∃ hc : c <
        (ChunkedData.chunksOf ⟨[(5 : ℚ), 6, 7], some [2, 1]⟩).length,
      chunkStart (ChunkedData.chunksOf ⟨[(5 : ℚ), 6, 7], some [2, 1]⟩) c ≤ 1 ∧
      1 < chunkStart (ChunkedData.chunksOf ⟨[(5 : ℚ), 6, 7], some [2, 1]⟩) c +
        (ChunkedData.chunksOf ⟨[(5 : ℚ), 6, 7], some [2, 1]⟩)[c] ∧
      chunkStart (ChunkedData.chunksOf ⟨[(5 : ℚ), 6, 7], some [2, 1]⟩) c ≤
        (shuffled_inds id
          (ChunkedData.chunksOf ⟨[(5 : ℚ), 6, 7], some [2, 1]⟩)).getD 1 0 ∧
      (shuffled_inds id
          (ChunkedData.chunksOf ⟨[(5 : ℚ), 6, 7], some [2, 1]⟩)).getD 1 0 <
        chunkStart (ChunkedData.chunksOf ⟨[(5 : ℚ), 6, 7], some [2, 1]⟩) c +
          (ChunkedData.chunksOf ⟨[(5 : ℚ), 6, 7], some [2, 1]⟩)[c]) ∧
    (shuffled ⟨[(5 : ℚ), 6, 7], some [2, 1]⟩ id).getD 1 0 =
      ([(5 : ℚ), 6, 7]).getD ((shuffled_inds id
        (ChunkedData.chunksOf ⟨[(5 : ℚ), 6, 7], some [2, 1]⟩)).getD 1 0) 0) := by
  refine ⟨fun l => List.Perm.refl l, by decide, ?_⟩
  exact shuffled_preserves_chunk_membership ⟨[(5 : ℚ), 6, 7], some [2, 1]⟩ id
    (fun l => List.Perm.refl l) 1 (by decide)

/-! ### Claim C6 -/

/-- Helper for C6: the packed-row fold keeps the sample count. -/
theorem pack_foldr_length (S : ℕ) :
    ∀ (vars : List (String × List (List ℚ))), (∀ v ∈ vars, v.2.length = S) →
      (vars.foldr (fun v acc => List.zipWith (· ++ ·) v.2 acc)
        (List.replicate S [])).length = S := by
  intro vars
  induction vars with
  | nil => intro _; simp
  | cons v rest ih =>
    intro hlen
    have hv : v.2.length = S := hlen v (by simp)
    have hr : (rest.foldr (fun v acc => List.zipWith (· ++ ·) v.2 acc)
        (List.replicate S [])).length = S :=
      ih (fun u hu => hlen u (by simp [hu]))
    simp [List.length_zipWith, hv, hr]

/-- Helper for C6: taking each variable's width back off the concatenated rows
recovers the variable. -/
theorem zip_append_take (wid : ℕ) :
    ∀ (a b : List (List ℚ)), (∀ x ∈ a, x.length = wid) → a.length = b.length →
      (List.zipWith (· ++ ·) a b).map (fun r => List.take wid r) = a := by
  intro a
  induction a with
  | nil => intro b _ _; simp
  | cons x a' ih =>
    intro b hw hlen
    match b with
    | [] => simp at hlen
    | y :: b' =>
      have hx : x.length = wid := hw x (by simp)
      simp only [List.zipWith_cons_cons, List.map_cons]
      rw [List.take_left' hx, ih b' (fun u hu => hw u (by simp [hu])) (by simpa using hlen)]

/-- Helper for C6: dropping each variable's width off the concatenated rows
leaves the remaining variables' rows. -/
theorem zip_append_drop (wid : ℕ) :
    ∀ (a b : List (List ℚ)), (∀ x ∈ a, x.length = wid) → a.length = b.length →
      (List.zipWith (· ++ ·) a b).map (fun r => List.drop wid r) = b := by
  intro a
  induction a with
  | nil =>
    intro b _ hlen
    match b with
    | [] => simp
    | y :: b' => simp at hlen
  | cons x a' ih =>
    intro b hw hlen
    match b with
    | [] => simp at hlen
    | y :: b' =>
      have hx : x.length = wid := hw x (by simp)
      simp only [List.zipWith_cons_cons, List.map_cons]
      rw [List.drop_left' hx, ih b' (fun u hu => hw u (by simp [hu])) (by simpa using hlen)]

/-- Helper for C6: `takeWhile` stops exactly at the end of an all-true block
followed by an all-false block. -/
theorem takeWhile_block {α : Type} (p : α → Bool) :
    ∀ (xs ys : List α), (∀ x ∈ xs, p x = true) → (∀ y ∈ ys, p y = false) →
      (xs ++ ys).takeWhile p = xs := by
  intro xs
  induction xs with
  | nil =>
    intro ys _ hys
    match ys with
    | [] => simp
    | y :: ys' =>
      simp [List.takeWhile_cons, hys y (by simp)]
  | cons x xs' ih =>
    intro ys hxs hys
    simp [List.takeWhile_cons, hxs x (by simp),
      ih ys (fun u hu => hxs u (by simp [hu])) hys]

/-- Helper for C6: the empty-index case of `unpack_array`. -/
theorem unpack_array_nil (rows : List (List ℚ)) : unpack_array rows [] = [] := by
  rw [unpack_array]

/-- Helper for C6: the cons-index case of `unpack_array`. -/
theorem unpack_array_cons (rows : List (List ℚ)) (n : String) (o : ℕ)
    (rest : List (String × ℕ)) :
    unpack_array rows ((n, o) :: rest) =
      (n, rows.map (fun r => List.take
        ((((n, o) :: rest).takeWhile (fun q => q.1 == n)).length) r)) ::
      unpack_array (rows.map (fun r => List.drop
        ((((n, o) :: rest).takeWhile (fun q => q.1 == n)).length) r))
        (((n, o) :: rest).drop
          ((((n, o) :: rest).takeWhile (fun q => q.1 == n)).length)) := by
  rw [unpack_array]

/-- Helper for C6: unpacking the pack of a list of uniform-sample-count
variables with positive widths and distinct names recovers the variables. -/
theorem unpack_pack_vars (S : ℕ) :
    ∀ (vars : List (String × List (List ℚ))),
      (vars.map Prod.fst).Nodup →
      (∀ v ∈ vars, v.2.length = S) →
      (∀ v ∈ vars, ∀ r ∈ v.2, r.length = varWidth v.2) →
      (∀ v ∈ vars, 0 < varWidth v.2) →
      unpack_array
        (vars.foldr (fun v acc => List.zipWith (· ++ ·) v.2 acc)
          (List.replicate S []))
        (vars.flatMap (fun v => (List.range (varWidth v.2)).map
          (fun o => (v.1, o)))) = vars := by
  intro vars
  induction vars with
  | nil =>
    intro _ _ _ _
    simpa using unpack_array_nil (List.replicate S [])
  | cons v rest ih =>
    intro hnodup hS hwid hpos
    obtain ⟨n, rows⟩ := v
    have hwpos : 0 < varWidth rows := hpos (n, rows) (by simp)
    have hblock : ∀ q ∈ (List.range (varWidth rows)).map
        (fun o => ((n, o) : String × ℕ)), (q.1 == n) = true := by
      intro q hq
      simp only [List.mem_map, List.mem_range] at hq
      obtain ⟨o, _, rfl⟩ := hq
      simp
    have hrest : ∀ q ∈ rest.flatMap (fun v => (List.range (varWidth v.2)).map
        (fun o => ((v.1, o) : String × ℕ))), (q.1 == n) = false := by
      intro q hq
      simp only [List.mem_flatMap, List.mem_map, List.mem_range] at hq
      obtain ⟨u, hu, o, _, rfl⟩ := hq
      have hne : u.1 ≠ n := by
        intro he
        have : n ∈ rest.map Prod.fst := by
          rw [← he]
          exact List.mem_map_of_mem Prod.fst hu
        simp only [List.map_cons, List.nodup_cons] at hnodup
        exact hnodup.1 this
      simpa using hne
    have htake : (((List.range (varWidth rows)).map (fun o => ((n, o) : String × ℕ)))
          ++ rest.flatMap (fun v => (List.range (varWidth v.2)).map
            (fun o => (v.1, o)))).takeWhile (fun q => q.1 == n) =
        (List.range (varWidth rows)).map (fun o => ((n, o) : String × ℕ)) :=
      takeWhile_block _ _ _ hblock hrest
    have hflat : ((n, rows) :: rest).flatMap (fun v => (List.range (varWidth v.2)).map
        (fun o => ((v.1, o) : String × ℕ))) =
        ((List.range (varWidth rows)).map (fun o => ((n, o) : String × ℕ)))
          ++ rest.flatMap (fun v => (List.range (varWidth v.2)).map
            (fun o => (v.1, o))) := by
      simp
    have hblock_ne : ∃ o rest', (List.range (varWidth rows)).map
        (fun o => ((n, o) : String × ℕ)) = (n, o) :: rest' := by
      match he : (List.range (varWidth rows)).map (fun o => ((n, o) : String × ℕ)) with
      | [] =>
        exfalso
        have : varWidth rows = 0 := by simpa using congrArg List.length he
        omega
      | q :: rest' =>
        have hq : q ∈ (List.range (varWidth rows)).map
            (fun o => ((n, o) : String × ℕ)) := by rw [he]; simp
        simp only [List.mem_map, List.mem_range] at hq
        obtain ⟨o, _, rfl⟩ := hq
        exact ⟨o, rest', rfl⟩
    obtain ⟨o₀, rest₀, hb⟩ := hblock_ne
    have hfold : (((n, rows) :: rest).foldr
        (fun v acc => List.zipWith (· ++ ·) v.2 acc) (List.replicate S [])) =
        List.zipWith (· ++ ·) rows
          (rest.foldr (fun v acc => List.zipWith (· ++ ·) v.2 acc)
            (List.replicate S [])) := by
      simp
    have hrows_len : rows.length = S := hS (n, rows) (by simp)
    have hrest_len : (rest.foldr (fun v acc => List.zipWith (· ++ ·) v.2 acc)
        (List.replicate S [])).length = S :=
      pack_foldr_length S rest (fun u hu => hS u (by simp [hu]))
    have hrow_wid : ∀ r ∈ rows, r.length = varWidth rows :=
      hwid (n, rows) (by simp)
    rw [hflat, hfold, hb]
    have hTW : (((n, o₀) :: rest₀) ++ rest.flatMap
          (fun v => (List.range (varWidth v.2)).map (fun o => (v.1, o)))).takeWhile
        (fun q => q.1 == n) = (n, o₀) :: rest₀ := by
      rw [← hb]
      exact htake
    simp only [List.cons_append] at hTW ⊢
    rw [unpack_array_cons]
    rw [hTW]
    have hlen_blk : ((n, o₀) :: rest₀).length = varWidth rows := by
      have := congrArg List.length hb
      simpa using this.symm
    rw [hlen_blk]
    have hdrop : ((((n, o₀) :: rest₀)) ++ rest.flatMap
          (fun v => (List.range (varWidth v.2)).map (fun o => (v.1, o)))).drop
        (varWidth rows) = rest.flatMap
          (fun v => (List.range (varWidth v.2)).map (fun o => (v.1, o))) := by
      rw [← hlen_blk]
      exact List.drop_left _ _
    simp only [List.cons_append] at hdrop
    rw [hdrop]
    rw [zip_append_take (varWidth rows) rows _ hrow_wid
      (by rw [hrows_len, hrest_len])]
    rw [zip_append_drop (varWidth rows) rows _ hrow_wid
      (by rw [hrows_len, hrest_len])]
    have := ih (by simpa using hnodup.of_cons) (fun u hu => hS u (by simp [hu]))
      (fun u hu => hwid u (by simp [hu])) (fun u hu => hpos u (by simp [hu]))
    rw [this]

/-- Helper for C6: selecting variables that are all present succeeds and
yields the name/rows pairs. -/
theorem mapM_lookup (ds : List (String × List (List ℚ))) :
    ∀ names : List String, (∀ n ∈ names, (ds.lookup n).isSome) →
      select_variables ds names =
        some (names.map (fun n => (n, (ds.lookup n).getD []))) := by
  intro names
  induction names with
  | nil => intro _; rfl
  | cons n rest ih =>
    intro hin
    obtain ⟨rows, hrows⟩ := Option.isSome_iff_exists.mp (hin n (by simp))
    simp [select_variables, hrows, ih (fun u hu => hin u (by simp [hu]))]

/-- C6: for a fresh `ArrayPacker` and a dataset containing all of its variables
(uniform positive sample count, uniform per-variable width),
`to_dataset(to_array(dataset))` reconstructs each variable's values and shape
exactly; and `to_dataset` on a fresh packer fails with the must-pack-first
state error for every input array. -/
theorem array_packer_round_trip (sample_dim : String) (names : List String)
    (ds : List (String × List (List ℚ))) (S : ℕ) (w : String → ℕ)
    (hS : 0 < S) (hnodup : names.Nodup)
    (hvars : ∀ n ∈ names, ∃ rows, ds.lookup n = some rows ∧ rows.length = S ∧
      (∀ r ∈ rows, r.length = w n) ∧ 0 < w n) :
    (∃ packed p2,
      ArrayPacker.to_array ⟨sample_dim, names, none⟩ ds = some (packed, p2) ∧
      p2.to_dataset packed =
        Except.ok (names.map (fun n => (n, (ds.lookup n).getD [])))) ∧
    (∀ array, ArrayPacker.to_dataset ⟨sample_dim, names, none⟩ array =
      Except.error mustPackMessage) := by
  refine ⟨?_, fun array => rfl⟩
  have hsome : ∀ n ∈ names, (ds.lookup n).isSome := by
    intro n hn
    obtain ⟨rows, h1, _⟩ := hvars n hn
    simp [h1]
  have hmapM := mapM_lookup ds names hsome
  match names, hnodup, hvars, hmapM with
  | [], _, _, hmapM =>
    refine ⟨[], ⟨sample_dim, [], some []⟩, ?_, ?_⟩
    · rfl
    · simp [ArrayPacker.to_dataset, unpack_array_nil]
  | n₀ :: rest, hnodup, hvars, hmapM =>
    have hv0 := hvars n₀ (by simp)
    obtain ⟨rows₀, hl0, hlen0, _, _⟩ := hv0
    have hmem : ∀ v ∈ (n₀ :: rest).map (fun n => (n, (ds.lookup n).getD [])),
        ∃ hn : v.1 ∈ n₀ :: rest, v.2 = (ds.lookup v.1).getD [] := by
      intro v hv
      simp only [List.mem_map] at hv
      obtain ⟨n, hn, rfl⟩ := hv
      exact ⟨hn, rfl⟩
    have hrows_of : ∀ n ∈ n₀ :: rest, ((ds.lookup n).getD []).length = S ∧
        (∀ r ∈ (ds.lookup n).getD [], r.length = w n) := by
      intro n hn
      obtain ⟨rows, h1, h2, h3, _⟩ := hvars n hn
      rw [h1]
      exact ⟨h2, h3⟩
    have hwidth_of : ∀ n ∈ n₀ :: rest,
        varWidth ((ds.lookup n).getD []) = w n := by
      intro n hn
      obtain ⟨h2, h3⟩ := hrows_of n hn
      match hrw : (ds.lookup n).getD [] with
      | [] =>
        rw [hrw] at h2
        simp at h2
        omega
      | r :: rs =>
        have hr : r.length = w n := by
          apply h3
          rw [hrw]
          simp
        simpa [varWidth] using hr
    have hvarsS : ∀ v ∈ (n₀ :: rest).map (fun n => (n, (ds.lookup n).getD [])),
        v.2.length = S := by
      intro v hv
      obtain ⟨hn, he⟩ := hmem v hv
      rw [he]
      exact (hrows_of v.1 hn).1
    have hvarsW : ∀ v ∈ (n₀ :: rest).map (fun n => (n, (ds.lookup n).getD [])),
        ∀ r ∈ v.2, r.length = varWidth v.2 := by
      intro v hv r hr
      obtain ⟨hn, he⟩ := hmem v hv
      rw [he, hwidth_of v.1 hn]
      exact (hrows_of v.1 hn).2 r (by rw [← he]; exact hr)
    have hvarsP : ∀ v ∈ (n₀ :: rest).map (fun n => (n, (ds.lookup n).getD [])),
        0 < varWidth v.2 := by
      intro v hv
      obtain ⟨hn, he⟩ := hmem v hv
      rw [he, hwidth_of v.1 hn]
      obtain ⟨_, _, _, _, h5⟩ := hvars v.1 hn
      exact h5
    have hvarsN : (((n₀ :: rest).map
        (fun n => (n, (ds.lookup n).getD []))).map Prod.fst).Nodup := by
      have : ((n₀ :: rest).map (fun n => (n, (ds.lookup n).getD []))).map
          Prod.fst = n₀ :: rest := by
        rw [List.map_map]
        have hcomp : (Prod.fst ∘ fun n : String => (n, (ds.lookup n).getD []))
            = fun n => n := by
          funext u
          rfl
        rw [hcomp]
        exact List.map_id' _
      rw [this]
      exact hnodup
    have hunpack := unpack_pack_vars S
      ((n₀ :: rest).map (fun n => (n, (ds.lookup n).getD [])))
      hvarsN hvarsS hvarsW hvarsP
    have hhead : ((((n₀ :: rest).map
        (fun n => (n, (ds.lookup n).getD []))).headD ("", [])).2).length = S := by
      simp only [List.map_cons, List.headD_cons]
      rw [hl0]
      simpa using hlen0
    set vars : List (String × List (List ℚ)) :=
      (n₀ :: rest).map (fun n => (n, (ds.lookup n).getD [])) with hvdef
    refine ⟨vars.foldr (fun v acc => List.zipWith (· ++ ·) v.2 acc)
        (List.replicate ((vars.headD ("", [])).2.length) []),
      ⟨sample_dim, n₀ :: rest, some (vars.flatMap
        (fun v => (List.range (varWidth v.2)).map (fun o => (v.1, o))))⟩,
      ?_, ?_⟩
    · unfold ArrayPacker.to_array pack_dataset
      rw [hmapM]
      rfl
    · show Except.ok (unpack_array
        (vars.foldr (fun v acc => List.zipWith (· ++ ·) v.2 acc)
          (List.replicate ((vars.headD ("", [])).2.length) []))
        (vars.flatMap
          (fun v => (List.range (varWidth v.2)).map (fun o => (v.1, o))))) =
        Except.ok vars
      rw [hhead, hunpack]

/-- C6 witness: a two-variable dataset (widths 1 and 2, two samples). -/
theorem array_packer_round_trip_witness :
    ((0 : ℕ) < 2 ∧ (["a", "b"] : List String).Nodup ∧
      (∀ n ∈ (["a", "b"] : List String), ∃ rows,
        ([("a", [[(1 : ℚ)], [2]]), ("b", [[3, 4], [5, 6]])]).lookup n =
          some rows ∧
        rows.length = 2 ∧
        (∀ r ∈ rows, r.length = (if n = "a" then 1 else 2)) ∧
        0 < (if n = "a" then 1 else 2))) ∧
    ((∃ packed p2,
      ArrayPacker.to_array ⟨"sample", ["a", "b"], none⟩
          [("a", [[(1 : ℚ)], [2]]), ("b", [[3, 4], [5, 6]])] =
        some (packed, p2) ∧
      p2.to_dataset packed = Except.ok ((["a", "b"] : List String).map
        (fun n => (n, (([("a", [[(1 : ℚ)], [2]]), ("b", [[3, 4], [5, 6]])]).lookup
          n).getD [])))) ∧
    (∀ array, ArrayPacker.to_dataset ⟨"sample", ["a", "b"], none⟩ array =
      Except.error mustPackMessage)) := by
  have h3 : ∀ n ∈ (["a", "b"] : List String), ∃ rows,
      ([("a", [[(1 : ℚ)], [2]]), ("b", [[3, 4], [5, 6]])]).lookup n =
        some rows ∧
      rows.length = 2 ∧
      (∀ r ∈ rows, r.length = (if n = "a" then 1 else 2)) ∧
      0 < (if n = "a" then 1 else 2) := by
    intro n hn
    simp only [List.mem_cons, List.not_mem_nil, or_false] at hn
    rcases hn with rfl | rfl
    · exact ⟨[[(1 : ℚ)], [2]], by decide, by decide, by decide, by decide⟩
    · exact ⟨[[(3 : ℚ), 4], [5, 6]], by decide, by decide, by decide, by decide⟩
  exact ⟨⟨by decide, by decide, h3⟩,
    array_packer_round_trip "sample" ["a", "b"]
      [("a", [[(1 : ℚ)], [2]]), ("b", [[3, 4], [5, 6]])] 2
      (fun n => if n = "a" then 1 else 2) (by decide) (by decide) h3⟩

/-! ### Claims C1 and C2: gather and arithmetic helpers -/

/-- A gather has the requested length. -/
theorem gather_length (src : List ℚ) (n : ℕ) (σ : ℕ → ℕ) :
    (gather src n σ).length = n := by
  simp [gather]

/-- Elements of a gather. -/
theorem gather_getElem (src : List ℚ) (n : ℕ) (σ : ℕ → ℕ) (k : ℕ)
    (hk : k < n) :
    (gather src n σ).getD k 0 = src.getD (σ k) 0 := by
  rw [List.getD_eq_getElem _ _ (by simpa [gather_length] using hk)]
  simp [gather]

/-- Gathers agree when counts agree and maps agree in range. -/
theorem gather_congr (src : List ℚ) (n n' : ℕ) (σ σ' : ℕ → ℕ) (hn : n = n')
    (hσ : ∀ k < n', σ k = σ' k) : gather src n σ = gather src n' σ' := by
  subst hn
  unfold gather
  refine List.map_congr_left ?_
  intro k hk
  rw [hσ k (List.mem_range.mp hk)]

/-- Composition of gathers is a gather along the composed map. -/
theorem gather_gather (src : List ℚ) (n1 n2 : ℕ) (σa σb : ℕ → ℕ)
    (hb : ∀ k < n2, σb k < n1) :
    gather (gather src n1 σa) n2 σb = gather src n2 (fun k => σa (σb k)) := by
  unfold gather
  refine List.map_congr_left ?_
  intro k hk
  have hk2 := List.mem_range.mp hk
  have := gather_getElem src n1 σa (σb k) (hb k hk2)
  simpa [gather] using this

/-- The identity gather returns the list. -/
theorem gather_id (src : List ℚ) (n : ℕ) (hn : src.length = n) :
    gather src n (fun k => k) = src := by
  subst hn
  refine List.ext_getElem (by simp [gather_length]) ?_
  intro k h1 h2
  have := gather_getElem src src.length (fun k => k) k (by simpa using h2)
  rw [List.getD_eq_getElem _ _ h1] at this
  rw [this, List.getD_eq_getElem _ _ h2]

/-- Division/remainder of a block-decomposed index. -/
theorem decomp_div_mod (q r m : ℕ) (hr : r < m) :
    (q * m + r) / m = q ∧ (q * m + r) % m = r := by
  have hm : 0 < m := by omega
  constructor
  · rw [mul_comm q m, Nat.mul_add_div hm, Nat.div_eq_of_lt hr]
    omega
  · rw [mul_comm q m, Nat.mul_add_mod, Nat.mod_eq_of_lt hr]

/-- Flattening a range-map of range-maps is a single range-map over the
product, indexed by division and remainder. -/
theorem flatten_range_map (M m : ℕ) (g : ℕ → ℕ → ℚ) :
    ((List.range M).map (fun s => (List.range m).map (g s))).flatten =
      (List.range (M * m)).map (fun k => g (k / m) (k % m)) := by
  induction M with
  | zero => simp
  | succ M ih =>
    rw [List.range_succ, List.map_append, List.flatten_append, ih]
    have : List.range ((M + 1) * m) = List.range (M * m + m) := by
      ring_nf
    rw [this, List.range_add, List.map_append]
    congr 1
    simp only [List.map_map, List.map_cons, List.map_nil, List.flatten_cons,
      List.flatten_nil, List.append_nil]
    refine List.map_congr_left ?_
    intro u hu
    have hu' := List.mem_range.mp hu
    have h1 : (M * m + u) / m = M := (decomp_div_mod M u m hu').1
    have h2 : (M * m + u) % m = u := (decomp_div_mod M u m hu').2
    simp [Function.comp, h1, h2]
/-- The square divider's subdomain side length. -/
theorem square_xy_size (L t : ℕ) (hL : 0 < L) :
    (RankDivider.mk (L, L) ["x", "y"] [L * t, L * t]
      0).subdomain_xy_size_without_overlap = t := by
  show L * t / L = t
  exact Nat.mul_div_cancel_left t hL

/-- The square divider's halo-free subdomain extent. -/
theorem square_extent_false (L t : ℕ) (hL : 0 < L) :
    (RankDivider.mk (L, L) ["x", "y"] [L * t, L * t]
      0).get_subdomain_extent false = [t, t] := by
  simp only [RankDivider.get_subdomain_extent]
  rw [square_xy_size L t hL]
  rfl

/-- The partitioner's subtile slices on a square layout and extent. -/
theorem subtile_slice_square (L t : ℕ) (hL : 0 < L) (s : ℕ) (hs : s < L * L) :
    subtile_slice (L, L) s ["x", "y"] [L * t, L * t] =
      [⟨s % L * t, s % L * t + t⟩, ⟨s / L * t, s / L * t + t⟩] := by
  unfold subtile_slice
  simp only []
  rw [show ((L, L) : ℕ × ℕ).1 * ((L, L) : ℕ × ℕ).2 = L * L from rfl]
  rw [Nat.mod_eq_of_lt hs]
  simp only [List.zip_cons_cons, List.zip_nil_right, List.map_cons,
    List.map_nil]
  rw [if_pos trivial, if_neg (by decide), if_pos trivial,
    Nat.mul_div_cancel_left t hL]
  simp [add_one_mul]

/-- The square divider's halo-free subdomain slices. -/
theorem subdomain_slice_square (L t : ℕ) (hL : 0 < L) (s : ℕ)
    (hs : s < L * L) :
    (RankDivider.mk (L, L) ["x", "y"] [L * t, L * t] 0).subdomain_slice s
        false =
      [⟨s % L * t, s % L * t + t⟩, ⟨s / L * t, s / L * t + t⟩] := by
  unfold RankDivider.subdomain_slice
  rw [show (RankDivider.mk (L, L) ["x", "y"] [L * t, L * t]
    0).rank_extent_without_overlap = [L * t, L * t] from rfl]
  rw [show (RankDivider.mk (L, L) ["x", "y"] [L * t, L * t]
    0).subdomain_layout = (L, L) from rfl]
  rw [show (RankDivider.mk (L, L) ["x", "y"] [L * t, L * t]
    0).rank_dims = ["x", "y"] from rfl]
  rw [subtile_slice_square L t hL s hs]
  rfl

/-- Slicing a 3-D row-major array along axis 0. -/
theorem slice3_axis0 (n1 n2 n3 lo w : ℕ) (src : List ℚ) (h : lo + w ≤ n1) :
    slice_along_axis ⟨[n1, n2, n3], src⟩ ⟨lo, lo + w⟩ 0 =
      ⟨[w, n2, n3], gather src (w * (n2 * n3)) (fun k =>
        (lo + k / (n2 * n3)) * (n2 * n3) + k % (n2 * n3))⟩ := by
  have hw : min (lo + w) ([n1, n2, n3].getD 0 0) -
      min lo ([n1, n2, n3].getD 0 0) = w := by
    simp only [List.getD_cons_zero]
    omega
  unfold slice_along_axis
  dsimp only
  congr 1
  · simpa using hw
  · refine gather_congr _ _ _ _ _ ?_ ?_
    · rw [hw]
      show 1 * w * (n2 * (n3 * 1)) = w * (n2 * n3)
      ring
    · intro k hk
      rw [hw]
      show (k / (n2 * (n3 * 1)) / w * n1 +
          (min lo n1 + k / (n2 * (n3 * 1)) % w)) * (n2 * (n3 * 1)) +
            k % (n2 * (n3 * 1)) =
        (lo + k / (n2 * n3)) * (n2 * n3) + k % (n2 * n3)
      rw [mul_one, Nat.min_eq_left (by omega)]
      have hq : k / (n2 * n3) < w := by
        apply Nat.div_lt_of_lt_mul
        calc k < w * (n2 * n3) := hk
          _ = n2 * n3 * w := by ring
      rw [Nat.div_eq_of_lt hq, Nat.mod_eq_of_lt hq]
      simp

/-- Slicing a 3-D row-major array along axis 1. -/
theorem slice3_axis1 (n1 n2 n3 lo w : ℕ) (src : List ℚ) (h : lo + w ≤ n2) :
    slice_along_axis ⟨[n1, n2, n3], src⟩ ⟨lo, lo + w⟩ 1 =
      ⟨[n1, w, n3], gather src (n1 * w * n3) (fun k =>
        (k / n3 / w * n2 + (lo + k / n3 % w)) * n3 + k % n3)⟩ := by
  have hw : min (lo + w) ([n1, n2, n3].getD 1 0) -
      min lo ([n1, n2, n3].getD 1 0) = w := by
    simp only [List.getD_cons_zero, List.getD_cons_succ]
    omega
  unfold slice_along_axis
  dsimp only
  congr 1
  · simpa using hw
  · refine gather_congr _ _ _ _ _ ?_ ?_
    · rw [hw]
      show n1 * 1 * w * (n3 * 1) = n1 * w * n3
      ring
    · intro k hk
      rw [hw]
      show (k / (n3 * 1) / w * n2 + (min lo n2 + k / (n3 * 1) % w)) *
          (n3 * 1) + k % (n3 * 1) =
        (k / n3 / w * n2 + (lo + k / n3 % w)) * n3 + k % n3
      rw [mul_one, Nat.min_eq_left (by omega)]

/-- Slicing subdomain `s` (halo-free) out of a `(L*t, L*t, vz)` array gathers
along `sigmaCol`. -/
theorem subdomain_tensor_slice_char (L t vz : ℕ) (hL : 0 < L) (ht : 0 < t)
    (hvz : 0 < vz) (dat : List ℚ) (s : ℕ) (hs : s < L * L) :
    (RankDivider.mk (L, L) ["x", "y"] [L * t, L * t]
        0).get_subdomain_tensor_slice ⟨[L * t, L * t, vz], dat⟩ s false =
      Except.ok ⟨[t, t, vz], gather dat (t * t * vz) (sigmaCol L t vz s)⟩ := by
  have hi : s % L < L := Nat.mod_lt s hL
  have hj : s / L < L := Nat.div_lt_of_lt_mul (by omega)
  have hxb : s % L * t + t ≤ L * t := by
    calc s % L * t + t = (s % L + 1) * t := by ring
      _ ≤ L * t := Nat.mul_le_mul_right t (by omega)
  have hyb : s / L * t + t ≤ L * t := by
    calc s / L * t + t = (s / L + 1) * t := by ring
      _ ≤ L * t := Nat.mul_le_mul_right t (by omega)
  unfold RankDivider.get_subdomain_tensor_slice
  rw [if_neg (by simp)]
  rw [subdomain_slice_square L t hL s hs]
  rw [show (RankDivider.mk (L, L) ["x", "y"] [L * t, L * t] 0).x_ind = 0
    from rfl]
  rw [show (RankDivider.mk (L, L) ["x", "y"] [L * t, L * t] 0).y_ind = 1
    from rfl]
  dsimp only [List.getD_cons_zero, List.getD_cons_succ]
  rw [slice3_axis0 (L * t) (L * t) vz (s % L * t) t dat hxb]
  rw [slice3_axis1 t (L * t) vz (s / L * t) t _ hyb]
  congr 1
  rw [gather_gather _ _ _ _ _ ?hb]
  case hb =>
    intro u hu
    have hc : u % vz < vz := Nat.mod_lt u hvz
    have huv : u / vz < t * t := Nat.div_lt_of_lt_mul (by
      calc u < t * t * vz := hu
        _ = vz * (t * t) := by ring)
    have ha : u / vz / t < t := Nat.div_lt_of_lt_mul (by
      calc u / vz < t * t := huv
        _ = t * t := rfl)
    have hb' : u / vz % t < t := Nat.mod_lt _ ht
    have hjb : s / L * t + u / vz % t < L * t := by
      calc s / L * t + u / vz % t < s / L * t + t := by omega
        _ = (s / L + 1) * t := by ring
        _ ≤ L * t := Nat.mul_le_mul_right t (by omega)
    calc (u / vz / t * (L * t) + (s / L * t + u / vz % t)) * vz + u % vz
        < (u / vz / t * (L * t) + (s / L * t + u / vz % t)) * vz + vz := by omega
      _ = (u / vz / t * (L * t) + (s / L * t + u / vz % t) + 1) * vz := by ring
      _ ≤ (u / vz / t * (L * t) + L * t) * vz := by
          refine Nat.mul_le_mul_right vz ?_
          omega
      _ = (u / vz / t + 1) * (L * t) * vz := by ring
      _ ≤ t * (L * t) * vz := by
          refine Nat.mul_le_mul_right vz ?_
          exact Nat.mul_le_mul_right (L * t) (by omega)
      _ = t * (L * t * vz) := by ring
  congr 1
  refine gather_congr _ _ _ _ _ rfl ?_
  intro u hu
  have hc : u % vz < vz := Nat.mod_lt u hvz
  have huv : u / vz < t * t := Nat.div_lt_of_lt_mul (by
    calc u < t * t * vz := hu
      _ = vz * (t * t) := by ring)
  have ha : u / vz / t < t := Nat.div_lt_of_lt_mul (by
    calc u / vz < t * t := huv)
  have hb' : u / vz % t < t := Nat.mod_lt _ ht
  have hjb : s / L * t + u / vz % t < L * t := by
    calc s / L * t + u / vz % t < s / L * t + t := by omega
      _ = (s / L + 1) * t := by ring
      _ ≤ L * t := Nat.mul_le_mul_right t (by omega)
  have hinner : (s / L * t + u / vz % t) * vz + u % vz < L * t * vz := by
    calc (s / L * t + u / vz % t) * vz + u % vz
        < (s / L * t + u / vz % t) * vz + vz := by omega
      _ = (s / L * t + u / vz % t + 1) * vz := by ring
      _ ≤ L * t * vz := Nat.mul_le_mul_right vz (by omega)
  have hK : (u / vz / t * (L * t) + (s / L * t + u / vz % t)) * vz + u % vz =
      u / vz / t * (L * t * vz) + ((s / L * t + u / vz % t) * vz + u % vz) := by
    ring
  rw [hK]
  rw [(decomp_div_mod (u / vz / t) _ (L * t * vz) hinner).1]
  rw [(decomp_div_mod (u / vz / t) _ (L * t * vz) hinner).2]
  unfold sigmaCol
  ring

/-- `getD` of a map over a range. -/
theorem getD_range_map {β : Type} (N : ℕ) (f : ℕ → β) (dflt : β) (s : ℕ)
    (hs : s < N) : ((List.range N).map f).getD s dflt = f s := by
  rw [List.getD_eq_getElem _ _ (by simpa using hs)]
  simp

/-- The subdomain-column collection loop over in-range subdomain indices. -/
theorem subdomain_cols_char (L t vz : ℕ) (hL : 0 < L) (ht : 0 < t)
    (hvz : 0 < vz) (dat : List ℚ) :
    ∀ ss : List ℕ, (∀ s ∈ ss, s < L * L) →
      (RankDivider.mk (L, L) ["x", "y"] [L * t, L * t] 0).subdomain_cols
          ⟨[L * t, L * t, vz], dat⟩ false ss =
        Except.ok (ss.map (fun s => ⟨[t * t * vz],
          gather dat (t * t * vz) (sigmaCol L t vz s)⟩)) := by
  intro ss
  induction ss with
  | nil => intro _; rfl
  | cons s rest ih =>
    intro hin
    rw [RankDivider.subdomain_cols]
    rw [subdomain_tensor_slice_char L t vz hL ht hvz dat s (hin s (by simp))]
    rw [ih (fun u hu => hin u (by simp [hu]))]
    show Except.ok (NDArray.reshape_flat _ :: _) = _
    rw [List.map_cons]
    congr 2
    unfold NDArray.reshape_flat
    congr 1
    simp [gather_length]

/-- `flatten_subdomains_to_columns` on the square halo-free divider. -/
theorem flatten_cols_char (L t vz : ℕ) (hL : 0 < L) (ht : 0 < t)
    (hvz : 0 < vz) (dat : List ℚ) :
    (RankDivider.mk (L, L) ["x", "y"] [L * t, L * t]
        0).flatten_subdomains_to_columns ⟨[L * t, L * t, vz], dat⟩ false =
      Except.ok (np_stack_last ((List.range (L * L)).map (fun s =>
        ⟨[t * t * vz], gather dat (t * t * vz) (sigmaCol L t vz s)⟩))) := by
  unfold RankDivider.flatten_subdomains_to_columns
  rw [show (RankDivider.mk (L, L) ["x", "y"] [L * t, L * t] 0).n_subdomains =
    L * L from rfl]
  rw [subdomain_cols_char L t vz hL ht hvz dat (List.range (L * L))
    (fun s hs => List.mem_range.mp hs)]

/-- Concatenating the columns of the stacked array in order recovers one flat
gather by block-decomposed index. -/
theorem concat_columns_stack (M m : ℕ) (hM : 0 < M) (hm : 0 < m)
    (dat : List ℚ) (g : ℕ → ℕ → ℕ) :
    concat_columns (np_stack_last ((List.range M).map (fun s =>
        ⟨[m], gather dat m (g s)⟩))) =
      ⟨[M * m], gather dat (M * m) (fun k => g (k / m) (k % m))⟩ := by
  have hhead : (((List.range M).map (fun s =>
      (⟨[m], gather dat m (g s)⟩ : NDArray))).headD ⟨[0], []⟩).data.length =
      m := by
    match M, hM with
    | M' + 1, _ =>
      rw [List.range_succ_eq_map]
      simp [gather_length]
  have hcol : ∀ s < M, gather ((List.range (m * M)).map (fun u =>
      ((((List.range M).map (fun s => (⟨[m], gather dat m (g s)⟩ :
        NDArray))).getD (u % M) ⟨[0], []⟩).data).getD (u / M) 0)) m
      (fun f => f * M + s) =
      (List.range m).map (fun f => dat.getD (g s f) 0) := by
    intro s hs
    unfold gather
    refine List.map_congr_left ?_
    intro f hf
    have hf' := List.mem_range.mp hf
    have hidx : f * M + s < m * M := by
      calc f * M + s < f * M + M := by omega
        _ = (f + 1) * M := by ring
        _ ≤ m * M := Nat.mul_le_mul_right M (by omega)
    rw [getD_range_map _ _ _ _ hidx]
    rw [(decomp_div_mod f s M hs).1, (decomp_div_mod f s M hs).2]
    rw [getD_range_map _ _ _ _ hs]
    exact gather_getElem dat m (g s) f hf'
  unfold np_stack_last concat_columns np_concat_1d NDArray.col
  dsimp only
  rw [hhead]
  simp only [List.length_map, List.length_range, List.getD_cons_zero,
    List.getD_cons_succ]
  congr 1
  · congr 1
    rw [List.map_map]
    trans ((List.range M).map (fun _ => m)).sum
    · refine congrArg List.sum (List.map_congr_left ?_)
      intro s _
      simp [gather_length]
    · simp [List.map_const', List.sum_replicate, smul_eq_mul]
  · rw [List.map_map]
    trans ((List.range M).map (fun s => (List.range m).map (fun f =>
      dat.getD (g s f) 0))).flatten
    · refine congrArg List.flatten (List.map_congr_left ?_)
      intro s hsm
      have := hcol s (List.mem_range.mp hsm)
      simpa using this
    · rw [flatten_range_map]
      rfl

/-- `np.concatenate` of the first-axis slices of a 5-D array along axis 2 of
the slices. -/
theorem concat5_axis2 (d1 d2 d3 d4 d5 : ℕ) (src : List ℚ) :
    np_concat_first ⟨[d1, d2, d3, d4, d5], src⟩ 2 =
      ⟨[d2, d3, d1 * d4, d5], gather src (d2 * d3 * (d1 * d4) * d5) (fun k =>
        k / d5 % (d1 * d4) / d4 * (d2 * d3 * d4 * d5) +
          (k / d5 / (d1 * d4) * d4 + k / d5 % (d1 * d4) % d4) * d5 +
          k % d5)⟩ := by
  unfold np_concat_first
  dsimp only
  congr 1
  refine gather_congr _ _ _ _ _ ?_ ?_
  · show d2 * (d3 * 1) * (d1 * d4) * (d5 * 1) = d2 * d3 * (d1 * d4) * d5
    ring
  · intro k _
    show k / (d5 * 1) % (d1 * d4) / d4 * (d2 * (d3 * (d4 * (d5 * 1)))) +
        (k / (d5 * 1) / (d1 * d4) * d4 + k / (d5 * 1) % (d1 * d4) % d4) *
          (d5 * 1) + k % (d5 * 1) =
      k / d5 % (d1 * d4) / d4 * (d2 * d3 * d4 * d5) +
        (k / d5 / (d1 * d4) * d4 + k / d5 % (d1 * d4) % d4) * d5 + k % d5
    simp only [mul_one]
    ring

/-- `np.concatenate` of the first-axis slices of a 4-D array along axis 0 of
the slices. -/
theorem concat4_axis0 (d1 d2 d3 d4 : ℕ) (src : List ℚ) :
    np_concat_first ⟨[d1, d2, d3, d4], src⟩ 0 =
      ⟨[d1 * d2, d3, d4], gather src (d1 * d2 * (d3 * d4)) (fun k =>
        k / (d3 * d4) % (d1 * d2) / d2 * (d2 * (d3 * d4)) +
          k / (d3 * d4) % (d1 * d2) % d2 * (d3 * d4) + k % (d3 * d4))⟩ := by
  unfold np_concat_first
  dsimp only
  congr 1
  refine gather_congr _ _ _ _ _ ?_ ?_
  · show 1 * (d1 * d2) * (d3 * (d4 * 1)) = d1 * d2 * (d3 * d4)
    ring
  · intro k hk
    show k / (d3 * (d4 * 1)) % (d1 * d2) / d2 * (d2 * (d3 * (d4 * 1))) +
        (k / (d3 * (d4 * 1)) / (d1 * d2) * d2 +
          k / (d3 * (d4 * 1)) % (d1 * d2) % d2) * (d3 * (d4 * 1)) +
        k % (d3 * (d4 * 1)) =
      k / (d3 * d4) % (d1 * d2) / d2 * (d2 * (d3 * d4)) +
        k / (d3 * d4) % (d1 * d2) % d2 * (d3 * d4) + k % (d3 * d4)
    simp only [mul_one]
    have h0 : k / (d3 * d4) / (d1 * d2) = 0 := by
      refine Nat.div_eq_of_lt ?_
      refine Nat.div_lt_of_lt_mul ?_
      calc k < d1 * d2 * (d3 * d4) := hk
        _ = d3 * d4 * (d1 * d2) := by ring
    rw [h0]
    ring

/-- `unstack_subdomain` on a flat halo-free subdomain row of the square
divider. -/
theorem unstack_row_ok (L t vz : ℕ) (hL : 0 < L) (ht : 0 < t) (hvz : 0 < vz)
    (r : NDArray) (hshape : r.shape = [t * t * vz])
    (hlen : r.data.length = t * t * vz) :
    (RankDivider.mk (L, L) ["x", "y"] [L * t, L * t] 0).unstack_subdomain r
        false =
      Except.ok ⟨if vz = 1 then [t, t] else [t, t, vz], r.data⟩ := by
  unfold RankDivider.unstack_subdomain
  rw [square_extent_false L t hL, hlen, hshape]
  have hprod : ([t, t] : List ℕ).prod = t * t := by simp
  rw [hprod]
  have hvert : t * t * vz / (t * t) = vz :=
    Nat.mul_div_cancel_left vz (by positivity)
  rw [hvert]
  rw [if_neg (by simp; ring)]
  simp

/-- The unstacking loop of `merge_subdomains` succeeds row-by-row and keeps
every row's data. -/
theorem unstack_rows_char (L t vz : ℕ) (hL : 0 < L) (ht : 0 < t)
    (hvz : 0 < vz) :
    ∀ rows : List NDArray,
      (∀ r ∈ rows, r.shape = [t * t * vz] ∧ r.data.length = t * t * vz) →
      (RankDivider.mk (L, L) ["x", "y"] [L * t, L * t] 0).unstack_rows rows =
        Except.ok (rows.map (fun r =>
          ⟨if vz = 1 then [t, t] else [t, t, vz], r.data⟩)) := by
  intro rows
  induction rows with
  | nil => intro _; rfl
  | cons r rest ih =>
    intro h
    rw [RankDivider.unstack_rows]
    rw [unstack_row_ok L t vz hL ht hvz r (h r (by simp)).1 (h r (by simp)).2]
    rw [ih (fun u hu => h u (by simp [hu]))]
    rfl

/-- `split_1d_samples_into_2d_rows` on a flat array of `M` equal rows. -/
theorem split_char (M m : ℕ) (hM : 0 < M) (P : NDArray)
    (hPlen : P.data.length = M * m) :
    split_1d_samples_into_2d_rows P M =
      (List.range M).map (fun r => ⟨[m], gather P.data m (fun u => r * m + u)⟩) := by
  unfold split_1d_samples_into_2d_rows
  rw [hPlen, Nat.mul_div_cancel_left m hM]

/-- Flattening the row gathers of a flat array restores the array. -/
theorem rows_flatten (M m : ℕ) (P : List ℚ) (hP : P.length = M * m) :
    ((List.range M).map (fun r => gather P m (fun u => r * m + u))).flatten =
      P := by
  rw [show ((List.range M).map (fun r => gather P m (fun u => r * m + u))) =
    ((List.range M).map (fun r => (List.range m).map
      (fun u => P.getD (r * m + u) 0))) from rfl]
  rw [flatten_range_map M m (fun r u => P.getD (r * m + u) 0)]
  trans gather P (M * m) (fun k => k)
  · refine gather_congr _ _ _ _ _ rfl ?_
    intro k _
    rw [mul_comm (k / m) m]
    exact Nat.div_add_mod k m
  · exact gather_id P (M * m) hP

/-- `merge_subdomains` on the square divider reduces to the two
concatenations over the re-blocked flat prediction. -/
theorem merge_char (L t vz : ℕ) (hL : 0 < L) (ht : 0 < t) (hvz : 0 < vz)
    (P : NDArray) (hPlen : P.data.length = L * L * (t * t * vz)) :
    (RankDivider.mk (L, L) ["x", "y"] [L * t, L * t] 0).merge_subdomains P =
      Except.ok (np_concat_first (np_concat_first
        ⟨[L, L, t, t, vz], P.data⟩ 2) 0) := by
  unfold RankDivider.merge_subdomains
  rw [show (RankDivider.mk (L, L) ["x", "y"] [L * t, L * t] 0).n_subdomains =
    L * L from rfl]
  rw [split_char (L * L) (t * t * vz) (by positivity) P hPlen]
  dsimp only
  rw [unstack_rows_char L t vz hL ht hvz _ ?hrows]
  case hrows =>
    intro r hr
    simp only [List.mem_map, List.mem_range] at hr
    obtain ⟨i, _, rfl⟩ := hr
    exact ⟨rfl, gather_length _ _ _⟩
  dsimp only
  congr 1
  have hdata : (((List.range (L * L)).map (fun r => (⟨[t * t * vz],
      gather P.data (t * t * vz) (fun u => r * (t * t * vz) + u)⟩ :
        NDArray))).map (fun r =>
      (⟨if vz = 1 then [t, t] else [t, t, vz], r.data⟩ : NDArray))).map
        (fun p => p.data) = (List.range (L * L)).map (fun r =>
      gather P.data (t * t * vz) (fun u => r * (t * t * vz) + u)) := by
    rw [List.map_map, List.map_map]
    rfl
  rw [hdata]
  rw [rows_flatten (L * L) (t * t * vz) P.data hPlen]
  rw [square_xy_size L t hL]
  rw [hPlen]
  have hvert : L * L * (t * t * vz) / (L * L * t ^ 2) = vz := by
    rw [show L * L * (t * t * vz) = L * L * t ^ 2 * vz by ring]
    exact Nat.mul_div_cancel_left vz (by positivity)
  rw [hvert]

/-- The index arithmetic of the merge round trip: the axis-2 concatenation map
lands in range and inverts `sigmaCol`'s block decomposition. -/
theorem sigma_roundtrip (L t vz : ℕ) (hL : 0 < L) (ht : 0 < t) (hvz : 0 < vz)
    (k : ℕ) (hk : k < L * t * (L * t) * vz) :
    (k / vz % (L * t) / t * (L * t * t * vz) +
      (k / vz / (L * t) * t + k / vz % (L * t) % t) * vz + k % vz <
        L * L * (t * t * vz)) ∧
    sigmaCol L t vz
      ((k / vz % (L * t) / t * (L * t * t * vz) +
        (k / vz / (L * t) * t + k / vz % (L * t) % t) * vz + k % vz) /
          (t * t * vz))
      ((k / vz % (L * t) / t * (L * t * t * vz) +
        (k / vz / (L * t) * t + k / vz % (L * t) % t) * vz + k % vz) %
          (t * t * vz)) = k := by
  have hc : k % vz < vz := Nat.mod_lt _ hvz
  have hr1 : k / vz < L * t * (L * t) := Nat.div_lt_of_lt_mul (by
    calc k < L * t * (L * t) * vz := hk
      _ = vz * (L * t * (L * t)) := by ring)
  set c := k % vz with hcdef
  set r1 := k / vz with hr1def
  have hy : r1 % (L * t) < L * t := Nat.mod_lt _ (by positivity)
  have hx : r1 / (L * t) < L * t := Nat.div_lt_of_lt_mul (by
    calc r1 < L * t * (L * t) := hr1
      _ = L * t * (L * t) := rfl)
  set y := r1 % (L * t) with hydef
  set x := r1 / (L * t) with hxdef
  set p := y / t with hpdef
  set b := y % t with hbdef
  set q := x / t with hqdef
  set a := x % t with hadef
  have hb : b < t := Nat.mod_lt _ ht
  have ha : a < t := Nat.mod_lt _ ht
  have hp : p < L := Nat.div_lt_of_lt_mul (by
    calc y < L * t := hy
      _ = t * L := by ring)
  have hq : q < L := Nat.div_lt_of_lt_mul (by
    calc x < L * t := hx
      _ = t * L := by ring)
  have hytb : p * t + b = y := by
    rw [hpdef, hbdef, mul_comm]
    exact Nat.div_add_mod y t
  have hxta : q * t + a = x := by
    rw [hqdef, hadef, mul_comm]
    exact Nat.div_add_mod x t
  have hr1xy : x * (L * t) + y = r1 := by
    rw [hxdef, hydef, mul_comm]
    exact Nat.div_add_mod r1 (L * t)
  have hkrc : r1 * vz + c = k := by
    rw [hr1def, hcdef, mul_comm]
    exact Nat.div_add_mod k vz
  have hK0 : p * (L * t * t * vz) + (x * t + b) * vz + c =
      (p * L + q) * (t * t * vz) + ((a * t + b) * vz + c) := by
    rw [← hxta]
    ring
  have hu0 : (a * t + b) * vz + c < t * t * vz := by
    calc (a * t + b) * vz + c < (a * t + b) * vz + vz := by omega
      _ = (a * t + b + 1) * vz := by ring
      _ ≤ t * t * vz := by
          refine Nat.mul_le_mul_right vz ?_
          calc a * t + b + 1 ≤ a * t + t := by omega
            _ = (a + 1) * t := by ring
            _ ≤ t * t := Nat.mul_le_mul_right t (by omega)
  have hs0 : p * L + q < L * L := by
    calc p * L + q < p * L + L := by omega
      _ = (p + 1) * L := by ring
      _ ≤ L * L := Nat.mul_le_mul_right L (by omega)
  constructor
  · rw [hK0]
    calc (p * L + q) * (t * t * vz) + ((a * t + b) * vz + c) <
        (p * L + q) * (t * t * vz) + t * t * vz := by omega
      _ = (p * L + q + 1) * (t * t * vz) := by ring
      _ ≤ L * L * (t * t * vz) := Nat.mul_le_mul_right _ (by omega)
  · rw [hK0]
    rw [(decomp_div_mod (p * L + q) _ (t * t * vz) hu0).1,
      (decomp_div_mod (p * L + q) _ (t * t * vz) hu0).2]
    unfold sigmaCol
    rw [(decomp_div_mod p q L hq).2, (decomp_div_mod p q L hq).1]
    rw [(decomp_div_mod (a * t + b) c vz hc).2,
      (decomp_div_mod (a * t + b) c vz hc).1]
    rw [(decomp_div_mod a b t hb).1, (decomp_div_mod a b t hb).2]
    rw [hxta, hytb, hr1xy]
    exact hkrc

/-- `getD` at the first-updated position of a double `set`. -/
theorem getD_set_first {α : Type} (l : List α) (i j : ℕ) (a b dflt : α)
    (hi : i < l.length) (hij : j ≠ i) :
    ((l.set i a).set j b).getD i dflt = a := by
  rw [List.getD_eq_getElem _ _ (by simpa using hi)]
  rw [List.getElem_set_ne hij]
  simp [List.getElem_set_self, hi]

/-- `getD` at the second-updated position of a double `set`. -/
theorem getD_set_second {α : Type} (l : List α) (i j : ℕ) (a b dflt : α)
    (hj : j < l.length) :
    ((l.set i a).set j b).getD j dflt = b := by
  rw [List.getD_eq_getElem _ _ (by simpa using hj)]
  simp [List.getElem_set_self]

/-- C2 (amended): for every zero-overlap `RankDivider` with a square layout
`(L, L)` and square rank extent `(L*t, L*t)`, and every 3-D `(L*t, L*t, vz)`
array, flattening to columns (`with_overlap=False`), concatenating the
subdomain columns in index order, and merging reproduces the original array
exactly. -/
theorem merge_inverse_of_flatten_square (L t vz : ℕ) (hL : 0 < L)
    (ht : 0 < t) (hvz : 0 < vz) (dat : List ℚ)
    (hdat : dat.length = L * t * (L * t) * vz) :
    ∃ cols,
      (RankDivider.mk (L, L) ["x", "y"] [L * t, L * t]
        0).flatten_subdomains_to_columns ⟨[L * t, L * t, vz], dat⟩ false =
        Except.ok cols ∧
      (RankDivider.mk (L, L) ["x", "y"] [L * t, L * t] 0).merge_subdomains
        (concat_columns cols) = Except.ok ⟨[L * t, L * t, vz], dat⟩ := by
  refine ⟨_, flatten_cols_char L t vz hL ht hvz dat, ?_⟩
  rw [concat_columns_stack (L * L) (t * t * vz) (by positivity)
    (by positivity) dat (sigmaCol L t vz)]
  rw [merge_char L t vz hL ht hvz _ (gather_length _ _ _)]
  rw [concat5_axis2 L L t t vz _]
  rw [concat4_axis0 L t (L * t) vz _]
  congr 1
  congr 1
  have hid2 : gather (gather (gather dat (L * L * (t * t * vz))
      (fun k => sigmaCol L t vz (k / (t * t * vz)) (k % (t * t * vz))))
        (L * t * (L * t) * vz) (fun k =>
          k / vz % (L * t) / t * (L * t * t * vz) +
            (k / vz / (L * t) * t + k / vz % (L * t) % t) * vz + k % vz))
      (L * t * (L * t * vz)) (fun k =>
        k / (L * t * vz) % (L * t) / t * (t * (L * t * vz)) +
          k / (L * t * vz) % (L * t) % t * (L * t * vz) + k % (L * t * vz)) =
      gather (gather dat (L * L * (t * t * vz))
      (fun k => sigmaCol L t vz (k / (t * t * vz)) (k % (t * t * vz))))
        (L * t * (L * t) * vz) (fun k =>
          k / vz % (L * t) / t * (L * t * t * vz) +
            (k / vz / (L * t) * t + k / vz % (L * t) % t) * vz + k % vz) := by
    trans gather (gather (gather dat (L * L * (t * t * vz))
        (fun k => sigmaCol L t vz (k / (t * t * vz)) (k % (t * t * vz))))
          (L * t * (L * t) * vz) (fun k =>
            k / vz % (L * t) / t * (L * t * t * vz) +
              (k / vz / (L * t) * t + k / vz % (L * t) % t) * vz + k % vz))
        (L * t * (L * t * vz)) (fun k => k)
    · refine gather_congr _ _ _ _ _ rfl ?_
      intro k hk
      have hxlt : k / (L * t * vz) < L * t := Nat.div_lt_of_lt_mul (by
        calc k < L * t * (L * t * vz) := hk
          _ = L * t * vz * (L * t) := by ring)
      rw [Nat.mod_eq_of_lt hxlt]
      have h1 : k / (L * t * vz) / t * t + k / (L * t * vz) % t =
          k / (L * t * vz) := by
        rw [mul_comm]
        exact Nat.div_add_mod _ t
      have h2 : k / (L * t * vz) * (L * t * vz) + k % (L * t * vz) = k := by
        rw [mul_comm]
        exact Nat.div_add_mod k (L * t * vz)
      calc k / (L * t * vz) / t * (t * (L * t * vz)) +
          k / (L * t * vz) % t * (L * t * vz) + k % (L * t * vz)
          = (k / (L * t * vz) / t * t + k / (L * t * vz) % t) * (L * t * vz) +
            k % (L * t * vz) := by ring
        _ = k / (L * t * vz) * (L * t * vz) + k % (L * t * vz) := by rw [h1]
        _ = k := h2
    · refine gather_id _ _ ?_
      rw [gather_length]
      ring
  rw [hid2]
  rw [gather_gather dat (L * L * (t * t * vz)) (L * t * (L * t) * vz)
    (fun k => sigmaCol L t vz (k / (t * t * vz)) (k % (t * t * vz)))
    (fun k => k / vz % (L * t) / t * (L * t * t * vz) +
      (k / vz / (L * t) * t + k / vz % (L * t) % t) * vz + k % vz)
    (fun k hk => (sigma_roundtrip L t vz hL ht hvz k hk).1)]
  trans gather dat (L * t * (L * t) * vz) (fun k => k)
  · refine gather_congr _ _ _ _ _ rfl ?_
    intro k hk
    exact (sigma_roundtrip L t vz hL ht hvz k hk).2
  · exact gather_id dat _ hdat

/-- C2 counterexample: the flatten–concatenate–merge round trip fails for a
zero-overlap `RankDivider` as soon as the layout is not square (layout (2,1),
extent (4,4): the merged array has shape (2,4,2) and scrambled data), and for
a square layout it fails on an array without the trailing feature dimension
(layout (2,2), extent (2,2), 2-D data: the merged array keeps the values but
gains a trailing size-1 axis). -/
theorem merge_not_inverse_of_flatten_counterexample :
    (∃ cols,
      (RankDivider.mk (2, 1) ["x", "y"] [4, 4]
          0).flatten_subdomains_to_columns
          ⟨[4, 4, 1], [0, 1, 2, 3, 4, 5, 6, 7, 8, 9, 10, 11, 12, 13, 14, 15]⟩
          false = Except.ok cols ∧
      (RankDivider.mk (2, 1) ["x", "y"] [4, 4] 0).merge_subdomains
          (concat_columns cols) =
        Except.ok ⟨[2, 4, 2],
          [0, 1, 4, 5, 2, 3, 6, 7, 8, 9, 12, 13, 10, 11, 14, 15]⟩ ∧
      (⟨[2, 4, 2], [0, 1, 4, 5, 2, 3, 6, 7, 8, 9, 12, 13, 10, 11, 14, 15]⟩ :
          NDArray) ≠
        ⟨[4, 4, 1], [0, 1, 2, 3, 4, 5, 6, 7, 8, 9, 10, 11, 12, 13, 14, 15]⟩) ∧
    (∃ cols2,
      (RankDivider.mk (2, 2) ["x", "y"] [2, 2]
          0).flatten_subdomains_to_columns ⟨[2, 2], [1, 2, 3, 4]⟩ false =
        Except.ok cols2 ∧
      (RankDivider.mk (2, 2) ["x", "y"] [2, 2] 0).merge_subdomains
          (concat_columns cols2) = Except.ok ⟨[2, 2, 1], [1, 2, 3, 4]⟩ ∧
      (⟨[2, 2, 1], [1, 2, 3, 4]⟩ : NDArray) ≠ ⟨[2, 2], [1, 2, 3, 4]⟩) :=
  ⟨⟨_, rfl, by rfl, by decide⟩, ⟨_, rfl, by rfl, by decide⟩⟩

/-- C2 (amended) witness: `L = 1`, `t = 2`, `vz = 1`, a concrete `(2, 2, 1)`
array. -/
theorem merge_inverse_of_flatten_square_witness :
    ((0 : ℕ) < 1 ∧ (0 : ℕ) < 2 ∧ (0 : ℕ) < 1 ∧
      ([(5 : ℚ), 6, 7, 8] : List ℚ).length = 1 * 2 * (1 * 2) * 1) ∧
    (∃ cols,
      (RankDivider.mk (1, 1) ["x", "y"] [1 * 2, 1 * 2]
        0).flatten_subdomains_to_columns
          ⟨[1 * 2, 1 * 2, 1], [(5 : ℚ), 6, 7, 8]⟩ false = Except.ok cols ∧
      (RankDivider.mk (1, 1) ["x", "y"] [1 * 2, 1 * 2] 0).merge_subdomains
        (concat_columns cols) =
          Except.ok ⟨[1 * 2, 1 * 2, 1], [(5 : ℚ), 6, 7, 8]⟩) :=
  ⟨⟨by decide, by decide, by decide, by decide⟩,
    merge_inverse_of_flatten_square 1 2 1 (by decide) (by decide) (by decide)
      [(5 : ℚ), 6, 7, 8] (by decide)⟩

/-- C1: the concrete `subdomain_slice` values for layout (2,2),
rank_dims ["x","y"], rank_extent [6,6], overlap 1; and in general, for every
valid subdomain index of a well-formed divider, the `with_overlap=True` slice
keeps the partitioner's start bound and extends the stop bound by
`2*overlap`, while the `with_overlap=False` slice shifts both bounds by
`+overlap`. -/
theorem subdomain_slice_spec :
    ((RankDivider.mk (2, 2) ["x", "y"] [6, 6] 1).subdomain_slice 0 true =
        [⟨0, 4⟩, ⟨0, 4⟩] ∧
      (RankDivider.mk (2, 2) ["x", "y"] [6, 6] 1).subdomain_slice 0 false =
        [⟨1, 3⟩, ⟨1, 3⟩] ∧
      (RankDivider.mk (2, 2) ["x", "y"] [6, 6] 1).subdomain_slice 3 true =
        [⟨2, 6⟩, ⟨2, 6⟩] ∧
      (RankDivider.mk (2, 2) ["x", "y"] [6, 6] 1).subdomain_slice 3 false =
        [⟨3, 5⟩, ⟨3, 5⟩]) ∧
    ∀ (d : RankDivider) (s : ℕ), s < d.n_subdomains →
      d.rank_dims.length = d.rank_extent.length →
      "x" ∈ d.rank_dims → "y" ∈ d.rank_dims →
      ((d.subdomain_slice s true).getD d.x_ind ⟨0, 0⟩ =
        ⟨((subtile_slice d.subdomain_layout s d.rank_dims
            d.rank_extent_without_overlap).getD d.x_ind ⟨0, 0⟩).start,
          ((subtile_slice d.subdomain_layout s d.rank_dims
            d.rank_extent_without_overlap).getD d.x_ind ⟨0, 0⟩).stop +
            2 * d.overlap⟩) ∧
      ((d.subdomain_slice s true).getD d.y_ind ⟨0, 0⟩ =
        ⟨((subtile_slice d.subdomain_layout s d.rank_dims
            d.rank_extent_without_overlap).getD d.y_ind ⟨0, 0⟩).start,
          ((subtile_slice d.subdomain_layout s d.rank_dims
            d.rank_extent_without_overlap).getD d.y_ind ⟨0, 0⟩).stop +
            2 * d.overlap⟩) ∧
      ((d.subdomain_slice s false).getD d.x_ind ⟨0, 0⟩ =
        ⟨((subtile_slice d.subdomain_layout s d.rank_dims
            d.rank_extent_without_overlap).getD d.x_ind ⟨0, 0⟩).start +
            d.overlap,
          ((subtile_slice d.subdomain_layout s d.rank_dims
            d.rank_extent_without_overlap).getD d.x_ind ⟨0, 0⟩).stop +
            d.overlap⟩) ∧
      ((d.subdomain_slice s false).getD d.y_ind ⟨0, 0⟩ =
        ⟨((subtile_slice d.subdomain_layout s d.rank_dims
            d.rank_extent_without_overlap).getD d.y_ind ⟨0, 0⟩).start +
            d.overlap,
          ((subtile_slice d.subdomain_layout s d.rank_dims
            d.rank_extent_without_overlap).getD d.y_ind ⟨0, 0⟩).stop +
            d.overlap⟩) := by
  constructor
  · exact ⟨by decide, by decide, by decide, by decide⟩
  · intro d s _ hlen hx hy
    have hxl : d.x_ind < d.rank_dims.length := List.indexOf_lt_length.mpr hx
    have hyl : d.y_ind < d.rank_dims.length := List.indexOf_lt_length.mpr hy
    have hxy : d.y_ind ≠ d.x_ind := by
      intro he
      have hyx : "y" = "x" := (List.indexOf_inj hy hx).mp he
      exact absurd hyx (by decide)
    have hextlen : d.rank_extent_without_overlap.length =
        d.rank_extent.length := by
      unfold RankDivider.rank_extent_without_overlap
      simp
    have hslen : (subtile_slice d.subdomain_layout s d.rank_dims
        d.rank_extent_without_overlap).length = d.rank_dims.length := by
      unfold subtile_slice
      dsimp only
      rw [List.length_map, List.length_zip, hextlen, ← hlen, min_self]
    have hxs : d.x_ind < (subtile_slice d.subdomain_layout s d.rank_dims
        d.rank_extent_without_overlap).length := by
      rw [hslen]
      exact hxl
    have hys : d.y_ind < (subtile_slice d.subdomain_layout s d.rank_dims
        d.rank_extent_without_overlap).length := by
      rw [hslen]
      exact hyl
    refine ⟨?_, ?_, ?_, ?_⟩
    · unfold RankDivider.subdomain_slice
      dsimp only
      rw [getD_set_first _ _ _ _ _ _ hxs hxy]
      rfl
    · unfold RankDivider.subdomain_slice
      dsimp only
      rw [getD_set_second _ _ _ _ _ _ hys]
      rfl
    · unfold RankDivider.subdomain_slice
      dsimp only
      rw [getD_set_first _ _ _ _ _ _ hxs hxy]
      rfl
    · unfold RankDivider.subdomain_slice
      dsimp only
      rw [getD_set_second _ _ _ _ _ _ hys]
      rfl

/-- C1 witness: the concrete divider, subdomain index 3. -/
theorem subdomain_slice_spec_witness :
    ((3 : ℕ) < (RankDivider.mk (2, 2) ["x", "y"] [6, 6] 1).n_subdomains ∧
      (RankDivider.mk (2, 2) ["x", "y"] [6, 6] 1).rank_dims.length =
        (RankDivider.mk (2, 2) ["x", "y"] [6, 6] 1).rank_extent.length ∧
      "x" ∈ (RankDivider.mk (2, 2) ["x", "y"] [6, 6] 1).rank_dims ∧
      "y" ∈ (RankDivider.mk (2, 2) ["x", "y"] [6, 6] 1).rank_dims) ∧
    ((RankDivider.mk (2, 2) ["x", "y"] [6, 6] 1).subdomain_slice 0 true =
        [⟨0, 4⟩, ⟨0, 4⟩] ∧
      (RankDivider.mk (2, 2) ["x", "y"] [6, 6] 1).subdomain_slice 0 false =
        [⟨1, 3⟩, ⟨1, 3⟩] ∧
      (RankDivider.mk (2, 2) ["x", "y"] [6, 6] 1).subdomain_slice 3 true =
        [⟨2, 6⟩, ⟨2, 6⟩] ∧
      (RankDivider.mk (2, 2) ["x", "y"] [6, 6] 1).subdomain_slice 3 false =
        [⟨3, 5⟩, ⟨3, 5⟩]) ∧
    ((RankDivider.mk (2, 2) ["x", "y"] [6, 6] 1).subdomain_slice 3
        true).getD (RankDivider.mk (2, 2) ["x", "y"] [6, 6] 1).x_ind ⟨0, 0⟩ =
      ⟨((subtile_slice (RankDivider.mk (2, 2) ["x", "y"] [6, 6]
          1).subdomain_layout 3 (RankDivider.mk (2, 2) ["x", "y"] [6, 6]
          1).rank_dims (RankDivider.mk (2, 2) ["x", "y"] [6, 6]
          1).rank_extent_without_overlap).getD (RankDivider.mk (2, 2)
          ["x", "y"] [6, 6] 1).x_ind ⟨0, 0⟩).start,
        ((subtile_slice (RankDivider.mk (2, 2) ["x", "y"] [6, 6]
          1).subdomain_layout 3 (RankDivider.mk (2, 2) ["x", "y"] [6, 6]
          1).rank_dims (RankDivider.mk (2, 2) ["x", "y"] [6, 6]
          1).rank_extent_without_overlap).getD (RankDivider.mk (2, 2)
          ["x", "y"] [6, 6] 1).x_ind ⟨0, 0⟩).stop +
          2 * (RankDivider.mk (2, 2) ["x", "y"] [6, 6] 1).overlap⟩ :=
  ⟨⟨by decide, by decide, by decide, by decide⟩,
    subdomain_slice_spec.1,
    (subdomain_slice_spec.2 (RankDivider.mk (2, 2) ["x", "y"] [6, 6] 1) 3
      (by decide) (by decide) (by decide) (by decide)).1⟩

end Fv3net
